import Mathlib

/-!
Verification development for the ipcrypt-js cryptographic core.

The JavaScript sources embedded here:
* `src/core/kiasu-bc.js`  — single-key tweakable cipher (KIASU-BC)
* `src/ipcrypt-deterministic.js` — plain AES-128 on a 16-byte block
* `src/ipcrypt-nd.js`     — wire format tweak ‖ ciphertext for KIASU-BC
* `src/ipcrypt-ndx.js`    — dual-key whitening (XTS-style) construction
* `src/ipcrypt-pfx.js`    — bit-iterative prefix-preserving construction

The AES-128 primitive (`src/core/aes.js`: `expandKey`, `subBytes`,
`shiftRows`, `mixColumns`) is not part of the repository snapshot, only its
callers are; those definitions are modelled from the design document
(§4.1 AES-128 primitive) and validated against the FIPS-197 test vector and
the concrete vectors of §8.

Bytes are `Nat` values < 256; a 16-byte block is a `List Nat` of length 16.
All array-mutating JavaScript loops are translated into pure list operations.
-/

deriving instance DecidableEq for Except

/-- XOR two byte lists elementwise (JS `xorBytes` / the in-place `^=` loops). -/
def zipXor (a b : List Nat) : List Nat := List.zipWith (· ^^^ ·) a b

/-- Valid byte-array contents: every element is an actual byte (< 256),
matching the `Uint8Array` element invariant of the JS runtime. -/
def allBytes (l : List Nat) : Prop := ∀ b ∈ l, b < 256

instance (l : List Nat) : Decidable (allBytes l) := by
  unfold allBytes; infer_instance

/-- Modelled from the spec: the standard 256-entry AES S-box
(§4.1 "byte substitution via the standard 256-entry S-box"),
packed little-endian into one natural number, entry `i` at bits `8*i ..`. -/
def sboxTableN : Nat := 0x16bb54b00f2d99416842e6bf0d89a18cdf2855cee9871e9b948ed9691198f8e19e1dc186b95735610ef6034866b53e708a8bbd4b1f74dde8c6b4a61c2e2578ba08ae7a65eaf4566ca94ed58d6d37c8e779e4959162acd3c25c2406490a3a32e0db0b5ede14b8ee4688902a22dc4f816073195d643d7ea7c41744975fec130ccdd2f3ff1021dab6bcf5389d928f40a351a89f3c507f02f94585334d43fbaaefd0cf584c4a39becb6a5bb1fc20ed00d153842fe329b3d63b52a05a6e1b1a2c830975b227ebe28012079a059618c323c7041531d871f1e5a534ccf73f362693fdb7c072a49cafa2d4adf04759fa7dc982ca76abd7fe2b670130c56f6bf27b777c63

/-- Modelled from the spec: the inverse AES S-box (§4.1 "inverse S-box"),
packed like `sboxTableN`. -/
def invSboxTableN : Nat := 0x7d0c2155631469e126d677ba7e042b17619953833cbbebc8b0f52aae4d3be0a0ef9cc9939f7ae52d0d4ab519a97f51605fec8027591012b131c7078833a8dd1ff45acd78fec0db9a2079d2c64b3e56fc1bbe18aa0e62b76f89c5291d711af1476edf751ce837f9e28535ade72274ac9673e6b4f0cecff297eadc674f4111913a6b8a130103bdafc1020f3fca8f1e2cd00645b3b80558e4f70ad3bc8c00abd890849d8da75746155edab9edfd5048706c92b6655dcc5ca4d41698688664f6f87225d18b6d49a25b76b224d92866a12e084ec3fa420b954cee3d23c2a632947b54cbe9dec444438e3487ff2f9b8239e37cfbd7f3819ea340bf38a53630d56a0952

/-- Modelled from the spec: forward S-box lookup. -/
def sbox (b : Nat) : Nat := (sboxTableN >>> (8 * b)) &&& 255

/-- Modelled from the spec: inverse S-box lookup. -/
def invSbox (b : Nat) : Nat := (invSboxTableN >>> (8 * b)) &&& 255

/-- Modelled from the spec: multiplication by x in GF(2^8) with the AES
reduction polynomial 0x11B (§4.1 "GF(2^8) multiplication"). -/
def xtime (b : Nat) : Nat :=
  if b &&& 0x80 ≠ 0 then ((b <<< 1) ^^^ 0x1B) &&& 0xFF else (b <<< 1) &&& 0xFF

/-- Multiplication by 2 in GF(2^8). -/
def gm2 (v : Nat) : Nat := xtime v

/-- Multiplication by 3 in GF(2^8). -/
def gm3 (v : Nat) : Nat := xtime v ^^^ v

/-- Multiplication by 9 in GF(2^8). -/
def gm9 (v : Nat) : Nat := xtime (xtime (xtime v)) ^^^ v

/-- Multiplication by 11 in GF(2^8). -/
def gm11 (v : Nat) : Nat := xtime (xtime (xtime v)) ^^^ xtime v ^^^ v

/-- Multiplication by 13 in GF(2^8). -/
def gm13 (v : Nat) : Nat := xtime (xtime (xtime v)) ^^^ xtime (xtime v) ^^^ v

/-- Multiplication by 14 in GF(2^8). -/
def gm14 (v : Nat) : Nat := xtime (xtime (xtime v)) ^^^ xtime (xtime v) ^^^ xtime v

/-- Modelled from the spec: AES `subBytes` (forward). -/
def subBytes (s : List Nat) : List Nat := s.map sbox

/-- Modelled from the spec: AES `subBytes` with `inverse = true`. -/
def invSubBytes (s : List Nat) : List Nat := s.map invSbox

/-- Modelled from the spec: AES `shiftRows` (forward) on the 16-byte state,
state byte `r + 4*c` holding row `r`, column `c`. -/
def shiftRows (s : List Nat) : List Nat :=
  match s with
  | [a0,a1,a2,a3,a4,a5,a6,a7,a8,a9,a10,a11,a12,a13,a14,a15] =>
    [a0,a5,a10,a15, a4,a9,a14,a3, a8,a13,a2,a7, a12,a1,a6,a11]
  | other => other

/-- Modelled from the spec: AES `shiftRows` with `inverse = true`. -/
def invShiftRows (s : List Nat) : List Nat :=
  match s with
  | [a0,a1,a2,a3,a4,a5,a6,a7,a8,a9,a10,a11,a12,a13,a14,a15] =>
    [a0,a13,a10,a7, a4,a1,a14,a11, a8,a5,a2,a15, a12,a9,a6,a3]
  | other => other

/-- Modelled from the spec: one column of AES `mixColumns` (forward),
the MDS matrix rows (2 3 1 1), (1 2 3 1), (1 1 2 3), (3 1 1 2). -/
def mixCol (a b c d : Nat) : List Nat :=
  [ gm2 a ^^^ gm3 b ^^^ c ^^^ d,
    a ^^^ gm2 b ^^^ gm3 c ^^^ d,
    a ^^^ b ^^^ gm2 c ^^^ gm3 d,
    gm3 a ^^^ b ^^^ c ^^^ gm2 d ]

/-- Modelled from the spec: one column of AES `mixColumns` with
`inverse = true`, matrix rows (14 11 13 9), (9 14 11 13), (13 9 14 11),
(11 13 9 14). -/
def invMixCol (a b c d : Nat) : List Nat :=
  [ gm14 a ^^^ gm11 b ^^^ gm13 c ^^^ gm9 d,
    gm9 a ^^^ gm14 b ^^^ gm11 c ^^^ gm13 d,
    gm13 a ^^^ gm9 b ^^^ gm14 c ^^^ gm11 d,
    gm11 a ^^^ gm13 b ^^^ gm9 c ^^^ gm14 d ]

/-- Modelled from the spec: AES `mixColumns` (forward) on the 16-byte state. -/
def mixColumns (s : List Nat) : List Nat :=
  match s with
  | [a0,a1,a2,a3,a4,a5,a6,a7,a8,a9,a10,a11,a12,a13,a14,a15] =>
    mixCol a0 a1 a2 a3 ++ mixCol a4 a5 a6 a7 ++
    mixCol a8 a9 a10 a11 ++ mixCol a12 a13 a14 a15
  | other => other

/-- Modelled from the spec: AES `mixColumns` with `inverse = true`. -/
def invMixColumns (s : List Nat) : List Nat :=
  match s with
  | [a0,a1,a2,a3,a4,a5,a6,a7,a8,a9,a10,a11,a12,a13,a14,a15] =>
    invMixCol a0 a1 a2 a3 ++ invMixCol a4 a5 a6 a7 ++
    invMixCol a8 a9 a10 a11 ++ invMixCol a12 a13 a14 a15
  | other => other

/-- Modelled from the spec: AES round constants, `rconVal (i+1) = x^i` in
GF(2^8) (§4.1 "XOR with round constant"). -/
def rconVal : Nat → Nat
  | 0 => 0x8d
  | n+1 => xtime (rconVal n)

/-- Modelled from the spec: rotate a 4-byte word left by one byte. -/
def rotWord (w : List Nat) : List Nat :=
  match w with
  | [a,b,c,d] => [b,c,d,a]
  | other => other

/-- Modelled from the spec: apply the S-box to each byte of a word. -/
def subWord (w : List Nat) : List Nat := w.map sbox

/-- Modelled from the spec: AES-128 key schedule words in reverse order,
`revWords key n = [w (n-1), ..., w 1, w 0]` of the standard recurrence
(§4.1 "S-box applied to rotated last word, XOR with round constant,
word-wise combination"). -/
def revWords (key : List Nat) : Nat → List (List Nat)
  | 0 => []
  | n+1 =>
    if n+1 ≤ 4 then ((key.drop (4*n)).take 4) :: revWords key n
    else
      let prev := revWords key n
      let wLast := prev.getD 0 []
      let wBack := prev.getD 3 []
      (if n % 4 = 0 then
         zipXor wBack (zipXor (subWord (rotWord wLast)) [rconVal (n/4), 0, 0, 0])
       else zipXor wBack wLast) :: prev

/-- Modelled from the spec: `expandKey`, the flat 176-byte AES-128 round-key
schedule (11 round keys of 16 bytes). -/
def expandKey (key : List Nat) : List Nat := ((revWords key 44).reverse).flatten

/-- Round key `r` (16 bytes) out of a flat expanded key, as the JS code's
`expandedKey[round * 16 + i]` indexing. -/
def roundKey (ek : List Nat) (r : Nat) : List Nat := (ek.drop (16*r)).take 16

/-- The nine AES main rounds shared by every construction in the repository
(the JS `for (let round = 1; round < 10; round++)` loops), parameterized by
the per-round key material `kf` (round key, or round key XOR padded tweak for
KIASU-BC).  `mainRounds kf r s` applies rounds 1 up to `r` to state `s`. -/
def mainRounds (kf : Nat → List Nat) : Nat → List Nat → List Nat
  | 0, s => s
  | r+1, s => zipXor (mixColumns (shiftRows (subBytes (mainRounds kf r s)))) (kf (r+1))

/-- Forward cipher shared by the constructions: initial key XOR, nine main
rounds, final round without `mixColumns` (the encryption bodies of
`ipcrypt-deterministic.js`, `kiasu-bc.js`, `ipcrypt-ndx.js`, and
`aesEncrypt` in `ipcrypt-pfx.js`). -/
def cipherEncrypt (kf : Nat → List Nat) (block : List Nat) : List Nat :=
  zipXor (shiftRows (subBytes (mainRounds kf 9 (zipXor block (kf 0))))) (kf 10)

/-- The nine inverse main rounds (the JS `for (let round = 9; round > 0; round--)`
loops): `decMainRounds kf r s` applies inverse rounds `r` down to 1 to `s`. -/
def decMainRounds (kf : Nat → List Nat) : Nat → List Nat → List Nat
  | 0, s => s
  | r+1, s => decMainRounds kf r (invSubBytes (invShiftRows (invMixColumns (zipXor s (kf (r+1))))))

/-- Inverse cipher shared by the constructions (the decryption bodies of
`ipcrypt-deterministic.js`, `kiasu-bc.js` and `ipcrypt-ndx.js`). -/
def cipherDecrypt (kf : Nat → List Nat) (block : List Nat) : List Nat :=
  zipXor (decMainRounds kf 9 (invSubBytes (invShiftRows (zipXor block (kf 10))))) (kf 0)

/-- AES-128 encryption of one 16-byte block: the body of `encrypt` in
`src/ipcrypt-deterministic.js` (lines 23-59, after `ipToBytes`) and of
`aesEncrypt` in `src/ipcrypt-pfx.js` (lines 10-37). -/
def aesEncryptBlock (key block : List Nat) : List Nat :=
  cipherEncrypt (roundKey (expandKey key)) block

/-- AES-128 decryption of one 16-byte block: the body of `decrypt` in
`src/ipcrypt-deterministic.js` (lines 72-108). -/
def aesDecryptBlock (key block : List Nat) : List Nat :=
  cipherDecrypt (roundKey (expandKey key)) block

/-- `padTweak` from `src/core/kiasu-bc.js` lines 18-29: expand an 8-byte
tweak into 16 bytes, each 2-byte pair at the start of a 4-byte group. -/
def padTweak (t : List Nat) : List Nat :=
  [t.getD 0 0, t.getD 1 0, 0, 0,
   t.getD 2 0, t.getD 3 0, 0, 0,
   t.getD 4 0, t.getD 5 0, 0, 0,
   t.getD 6 0, t.getD 7 0, 0, 0]

/-- KIASU-BC per-round key material: round key XOR padded tweak, the JS
`state[i] ^= expandedKey[round * 16 + i] ^ paddedTweak[i]` loops. -/
def kiasuKf (key tweak : List Nat) : Nat → List Nat :=
  fun r => zipXor (roundKey (expandKey key) r) (padTweak tweak)

/-- `encrypt` from `src/core/kiasu-bc.js` lines 39-79: KIASU-BC encryption
with input validation. -/
def kiasuEncrypt (key tweak block : List Nat) : Except String (List Nat) :=
  if key.length ≠ 16 then .error "Key must be a 16-byte Uint8Array"
  else if tweak.length ≠ 8 then .error "Tweak must be an 8-byte Uint8Array"
  else if block.length ≠ 16 then .error "Block must be a 16-byte Uint8Array"
  else .ok (cipherEncrypt (kiasuKf key tweak) block)

/-- `decrypt` from `src/core/kiasu-bc.js` lines 90-130: KIASU-BC decryption
with input validation. -/
def kiasuDecrypt (key tweak block : List Nat) : Except String (List Nat) :=
  if key.length ≠ 16 then .error "Key must be a 16-byte Uint8Array"
  else if tweak.length ≠ 8 then .error "Tweak must be an 8-byte Uint8Array"
  else if block.length ≠ 16 then .error "Block must be a 16-byte Uint8Array"
  else .ok (cipherDecrypt (kiasuKf key tweak) block)

/-- `encrypt` from `src/ipcrypt-nd.js` lines 15-41 with an explicit tweak, at
the level of the canonical 16-byte block (`ipToBytes` is out of scope):
24-byte wire output `tweak ‖ ciphertext`. -/
def ndEncrypt (key tweak block : List Nat) : Except String (List Nat) :=
  (kiasuEncrypt key tweak block).map (fun ct => tweak ++ ct)

/-- `encryptBlockXts` from `src/ipcrypt-ndx.js` lines 23-102.  The AES round
loops inlined there for the tweak (under K2) and for the block (under K1) are
the shared `cipherEncrypt` rounds. -/
def encryptBlockXts (key tweak plaintext : List Nat) : Except String (List Nat) :=
  if key.length ≠ 32 then .error "Key must be a 32-byte Uint8Array"
  else if tweak.length ≠ 16 then .error "Tweak must be a 16-byte Uint8Array"
  else if plaintext.length ≠ 16 then .error "Plaintext must be a 16-byte Uint8Array"
  else
    let k1 := key.take 16
    let k2 := key.drop 16
    let encryptedTweak := cipherEncrypt (roundKey (expandKey k2)) tweak
    let state := zipXor plaintext encryptedTweak
    .ok (zipXor (cipherEncrypt (roundKey (expandKey k1)) state) encryptedTweak)

/-- `decryptBlockXts` from `src/ipcrypt-ndx.js` lines 119-198. -/
def decryptBlockXts (key tweak ciphertext : List Nat) : Except String (List Nat) :=
  if key.length ≠ 32 then .error "Key must be a 32-byte Uint8Array"
  else if tweak.length ≠ 16 then .error "Tweak must be a 16-byte Uint8Array"
  else if ciphertext.length ≠ 16 then .error "Ciphertext must be a 16-byte Uint8Array"
  else
    let k1 := key.take 16
    let k2 := key.drop 16
    let encryptedTweak := cipherEncrypt (roundKey (expandKey k2)) tweak
    let state := zipXor ciphertext encryptedTweak
    .ok (zipXor (cipherDecrypt (roundKey (expandKey k1)) state) encryptedTweak)

/-- `getBit` from `src/ipcrypt-pfx.js` lines 57-61: bit at `position`
(0 = LSB of byte 15, 127 = MSB of byte 0). -/
def getBit (data : List Nat) (pos : Nat) : Nat :=
  (data.getD (15 - pos / 8) 0 >>> (pos % 8)) &&& 1

/-- `setBit` from `src/ipcrypt-pfx.js` lines 71-80 (`~(1 << bitIndex)`
masking a stored byte is `&&& (255 ^^^ (1 <<< bitIndex))`). -/
def setBit (data : List Nat) (pos : Nat) (v : Nat) : List Nat :=
  let byteIndex := 15 - pos / 8
  let bitIndex := pos % 8
  let b := data.getD byteIndex 0
  data.set byteIndex
    (if v ≠ 0 then b ||| (1 <<< bitIndex) else b &&& (255 ^^^ (1 <<< bitIndex)))

/-- Helper for `shiftLeftOneBit`: shift a byte list left one bit, also
returning the carry out of the most significant byte. -/
def shiftLeftAux : List Nat → (List Nat × Nat)
  | [] => ([], 0)
  | b :: rest =>
    let p := shiftLeftAux rest
    ((((b <<< 1) ||| p.2) &&& 0xFF) :: p.1, (b >>> 7) &&& 1)

/-- `shiftLeftOneBit` from `src/ipcrypt-pfx.js` lines 86-99: the carry loop
from byte 15 down to byte 0. -/
def shiftLeftOneBit (data : List Nat) : List Nat := (shiftLeftAux data).1

/-- `isIPv4` from `src/ipcrypt-pfx.js` lines 44-47. -/
def isIPv4 (b : List Nat) : Bool :=
  (b.take 10).all (· == 0) && (b.getD 10 0 == 0xff) && (b.getD 11 0 == 0xff)

/-- `padPrefix0` from `src/ipcrypt-pfx.js` lines 105-109. -/
def padPrefix0 : List Nat := [0,0,0,0,0,0,0,0,0,0,0,0,0,0,0,1]

/-- `padPrefix96` from `src/ipcrypt-pfx.js` lines 115-121. -/
def padPrefix96 : List Nat := [0,0,0,1,0,0,0,0,0,0,0,0,0,0,0xff,0xff]

/-- Keystream bit of one prefix-preserving iteration: the XOR of the two AES
encryptions of the register, masked to the least significant bit of byte 15
(`e[15] & 1` in `src/ipcrypt-pfx.js`). -/
def prfBit (K1 K2 reg : List Nat) : Nat :=
  (zipXor (aesEncryptBlock K1 reg) (aesEncryptBlock K2 reg)).getD 15 0 &&& 1

/-- The per-bit loop of `encrypt` in `src/ipcrypt-pfx.js` lines 172-197.
With `n+1` iterations left, `prefixLenBits = 128 - (n+1)`, so
`currentBitPos = 127 - prefixLenBits = n`; the register `reg` is the JS
`paddedPrefix` and `enc` accumulates the output. -/
def pfxEncLoop (K1 K2 bytes16 : List Nat) : Nat → List Nat → List Nat → List Nat
  | 0, _, enc => enc
  | n+1, reg, enc =>
    let e1 := aesEncryptBlock K1 reg
    let e2 := aesEncryptBlock K2 reg
    let e := zipXor e1 e2
    let cipherBit := e.getD 15 0 &&& 1
    let originalBit := getBit bytes16 n
    let enc1 := setBit enc n (cipherBit ^^^ originalBit)
    let reg1 := setBit (shiftLeftOneBit reg) 0 originalBit
    pfxEncLoop K1 K2 bytes16 n reg1 enc1

/-- `encrypt` from `src/ipcrypt-pfx.js` lines 132-200, at the level of the
canonical 16-byte block (`ipToBytes`/`bytesToIp` are out of scope). -/
def pfxEncrypt (key bytes16 : List Nat) : Except String (List Nat) :=
  if key.length ≠ 32 then .error "Key must be 32 bytes"
  else
    let K1 := key.take 16
    let K2 := key.drop 16
    if K1 = K2 then .error "The two halves of the key must be different"
    else
      let ipv4 := isIPv4 bytes16
      let encrypted0 := if ipv4 then bytes16.take 12 ++ [0,0,0,0] else List.replicate 16 0
      let reg0 := if ipv4 then padPrefix96 else padPrefix0
      .ok (pfxEncLoop K1 K2 bytes16 (if ipv4 then 32 else 128) reg0 encrypted0)

/-- The per-bit loop of `decrypt` in `src/ipcrypt-pfx.js` lines 249-275. -/
def pfxDecLoop (K1 K2 encBytes : List Nat) : Nat → List Nat → List Nat → List Nat
  | 0, _, dec => dec
  | n+1, reg, dec =>
    let e1 := aesEncryptBlock K1 reg
    let e2 := aesEncryptBlock K2 reg
    let e := zipXor e1 e2
    let cipherBit := e.getD 15 0 &&& 1
    let encryptedBit := getBit encBytes n
    let originalBit := cipherBit ^^^ encryptedBit
    let dec1 := setBit dec n originalBit
    let reg1 := setBit (shiftLeftOneBit reg) 0 originalBit
    pfxDecLoop K1 K2 encBytes n reg1 dec1

/-- `decrypt` from `src/ipcrypt-pfx.js` lines 209-278, at the level of the
canonical 16-byte block. -/
def pfxDecrypt (key encBytes : List Nat) : Except String (List Nat) :=
  if key.length ≠ 32 then .error "Key must be 32 bytes"
  else
    let K1 := key.take 16
    let K2 := key.drop 16
    if K1 = K2 then .error "The two halves of the key must be different"
    else
      let ipv4 := isIPv4 encBytes
      let dec0 := if ipv4 then encBytes.take 12 ++ [0,0,0,0] else List.replicate 16 0
      let reg0 := if ipv4 then padPrefix96 else padPrefix0
      .ok (pfxDecLoop K1 K2 encBytes (if ipv4 then 32 else 128) reg0 dec0)

/-- Instrumented copy of `pfxEncLoop` that additionally counts the calls to
the AES primitive `aesEncryptBlock` (two per iteration: `e1` and `e2`). -/
def pfxEncLoopInstr (K1 K2 bytes16 : List Nat) : Nat → List Nat → List Nat → (List Nat × Nat)
  | 0, _, enc => (enc, 0)
  | n+1, reg, enc =>
    let e1 := aesEncryptBlock K1 reg
    let e2 := aesEncryptBlock K2 reg
    let e := zipXor e1 e2
    let cipherBit := e.getD 15 0 &&& 1
    let originalBit := getBit bytes16 n
    let enc1 := setBit enc n (cipherBit ^^^ originalBit)
    let reg1 := setBit (shiftLeftOneBit reg) 0 originalBit
    let rest := pfxEncLoopInstr K1 K2 bytes16 n reg1 enc1
    (rest.1, rest.2 + 2)

/-- Number of AES-primitive block encryptions performed by one
`pfxEncrypt` call (counted by `pfxEncLoopInstr`). -/
def pfxEncryptAesCalls (key bytes16 : List Nat) : Except String Nat :=
  if key.length ≠ 32 then .error "Key must be 32 bytes"
  else
    let K1 := key.take 16
    let K2 := key.drop 16
    if K1 = K2 then .error "The two halves of the key must be different"
    else
      let ipv4 := isIPv4 bytes16
      let encrypted0 := if ipv4 then bytes16.take 12 ++ [0,0,0,0] else List.replicate 16 0
      let reg0 := if ipv4 then padPrefix96 else padPrefix0
      .ok (pfxEncLoopInstr K1 K2 bytes16 (if ipv4 then 32 else 128) reg0 encrypted0).2

/-- Instrumented copy of `pfxDecLoop` counting AES-primitive calls. -/
def pfxDecLoopInstr (K1 K2 encBytes : List Nat) : Nat → List Nat → List Nat → (List Nat × Nat)
  | 0, _, dec => (dec, 0)
  | n+1, reg, dec =>
    let e1 := aesEncryptBlock K1 reg
    let e2 := aesEncryptBlock K2 reg
    let e := zipXor e1 e2
    let cipherBit := e.getD 15 0 &&& 1
    let encryptedBit := getBit encBytes n
    let originalBit := cipherBit ^^^ encryptedBit
    let dec1 := setBit dec n originalBit
    let reg1 := setBit (shiftLeftOneBit reg) 0 originalBit
    let rest := pfxDecLoopInstr K1 K2 encBytes n reg1 dec1
    (rest.1, rest.2 + 2)

/-- Number of AES-primitive block encryptions performed by one
`pfxDecrypt` call. -/
def pfxDecryptAesCalls (key encBytes : List Nat) : Except String Nat :=
  if key.length ≠ 32 then .error "Key must be 32 bytes"
  else
    let K1 := key.take 16
    let K2 := key.drop 16
    if K1 = K2 then .error "The two halves of the key must be different"
    else
      let ipv4 := isIPv4 encBytes
      let dec0 := if ipv4 then encBytes.take 12 ++ [0,0,0,0] else List.replicate 16 0
      let reg0 := if ipv4 then padPrefix96 else padPrefix0
      .ok (pfxDecLoopInstr K1 K2 encBytes (if ipv4 then 32 else 128) reg0 dec0).2

/-- Bool test: the top `n` bits (from bit position 127 downward) of two
16-byte blocks agree. -/
def agreeTop (x y : List Nat) (n : Nat) : Bool :=
  (List.range n).all (fun i => getBit x (127 - i) == getBit y (127 - i))

/-- Lift of `agreeTop` to the `Except`-valued results of `pfxEncrypt`:
true when both computations succeed with blocks agreeing on their top
`n` bits. -/
def agreeTopE (x y : Except String (List Nat)) (n : Nat) : Bool :=
  match x, y with
  | .ok a, .ok b => agreeTop a b n
  | _, _ => false

/-! ### Arithmetic helper lemmas -/

theorem xor_lt_256 {x y : Nat} (hx : x < 256) (hy : y < 256) : x ^^^ y < 256 := by
  have h : (256:Nat) = 2^8 := by norm_num
  rw [h] at hx hy ⊢
  exact Nat.xor_lt_two_pow hx hy

theorem xtime_lt (b : Nat) : xtime b < 256 := by
  unfold xtime
  split <;> exact Nat.lt_succ_of_le Nat.and_le_right

theorem sbox_lt (b : Nat) : sbox b < 256 :=
  Nat.lt_succ_of_le Nat.and_le_right

theorem invSbox_lt (b : Nat) : invSbox b < 256 :=
  Nat.lt_succ_of_le Nat.and_le_right

theorem xor_right_comm (a b c : Nat) : (a ^^^ b) ^^^ c = (a ^^^ c) ^^^ b := by
  rw [Nat.xor_assoc, Nat.xor_comm b c, ← Nat.xor_assoc]

theorem xor_left_comm (a b c : Nat) : a ^^^ (b ^^^ c) = b ^^^ (a ^^^ c) := by
  rw [← Nat.xor_assoc, Nat.xor_comm a b, Nat.xor_assoc]

theorem xor_mix (a b c d : Nat) : (a ^^^ b) ^^^ (c ^^^ d) = (a ^^^ c) ^^^ (b ^^^ d) := by
  rw [Nat.xor_assoc a b, xor_left_comm b c d, ← Nat.xor_assoc]

theorem xor_mix3 (a1 a2 b1 b2 c1 c2 : Nat) :
    (a1 ^^^ a2) ^^^ (b1 ^^^ b2) ^^^ (c1 ^^^ c2) = (a1 ^^^ b1 ^^^ c1) ^^^ (a2 ^^^ b2 ^^^ c2) := by
  rw [xor_mix a1 a2 b1 b2, xor_mix (a1 ^^^ b1) (a2 ^^^ b2) c1 c2]

theorem shiftLeft_one_xor (x y : Nat) : (x ^^^ y) <<< 1 = (x <<< 1) ^^^ (y <<< 1) := by
  apply Nat.eq_of_testBit_eq; intro i
  simp only [Nat.testBit_shiftLeft, Nat.testBit_xor]
  cases h : decide (1 ≤ i) <;> simp

theorem and_128_eq (x : Nat) : x &&& 128 = (x.testBit 7).toNat * 128 := by
  have h : (128 : Nat) = 2^7 := by norm_num
  rw [h, Nat.and_two_pow]

theorem xtime_xor (x y : Nat) (hx : x < 256) (hy : y < 256) :
    xtime (x ^^^ y) = xtime x ^^^ xtime y := by
  unfold xtime
  rw [and_128_eq x, and_128_eq y, and_128_eq (x ^^^ y), Nat.testBit_xor]
  rw [shiftLeft_one_xor]
  cases hbx : x.testBit 7 <;> cases hby : y.testBit 7 <;>
    simp <;> rw [← Nat.and_xor_distrib_right]
  · rw [Nat.xor_comm (x <<< 1) (y <<< 1), ← Nat.xor_assoc, Nat.xor_comm (y <<< 1) _,
        xor_right_comm]
  · rw [xor_right_comm]
  · rw [Nat.xor_assoc (x <<< 1), Nat.xor_comm 27 (y <<< 1 ^^^ 27), Nat.xor_assoc (y <<< 1),
        Nat.xor_self, Nat.xor_zero]

/-! ### Linearity of the GF(2^8) multipliers -/

theorem gm2_lt (v : Nat) : gm2 v < 256 := xtime_lt v

theorem gm3_lt (v : Nat) (hv : v < 256) : gm3 v < 256 := xor_lt_256 (xtime_lt v) hv

theorem gm9_lt (v : Nat) (hv : v < 256) : gm9 v < 256 := xor_lt_256 (xtime_lt _) hv

theorem gm11_lt (v : Nat) (hv : v < 256) : gm11 v < 256 :=
  xor_lt_256 (xor_lt_256 (xtime_lt _) (xtime_lt _)) hv

theorem gm13_lt (v : Nat) (hv : v < 256) : gm13 v < 256 :=
  xor_lt_256 (xor_lt_256 (xtime_lt _) (xtime_lt _)) hv

theorem gm14_lt (v : Nat) : gm14 v < 256 :=
  xor_lt_256 (xor_lt_256 (xtime_lt _) (xtime_lt _)) (xtime_lt _)

theorem gm2_xor (x y : Nat) (hx : x < 256) (hy : y < 256) :
    gm2 (x ^^^ y) = gm2 x ^^^ gm2 y := xtime_xor x y hx hy

theorem gm3_xor (x y : Nat) (hx : x < 256) (hy : y < 256) :
    gm3 (x ^^^ y) = gm3 x ^^^ gm3 y := by
  unfold gm3
  rw [xtime_xor x y hx hy, xor_mix]

theorem gm9_xor (x y : Nat) (hx : x < 256) (hy : y < 256) :
    gm9 (x ^^^ y) = gm9 x ^^^ gm9 y := by
  unfold gm9
  rw [xtime_xor x y hx hy, xtime_xor _ _ (xtime_lt _) (xtime_lt _),
      xtime_xor _ _ (xtime_lt _) (xtime_lt _), xor_mix]

theorem gm11_xor (x y : Nat) (hx : x < 256) (hy : y < 256) :
    gm11 (x ^^^ y) = gm11 x ^^^ gm11 y := by
  unfold gm11
  rw [xtime_xor x y hx hy, xtime_xor _ _ (xtime_lt _) (xtime_lt _),
      xtime_xor _ _ (xtime_lt _) (xtime_lt _)]
  exact xor_mix3 _ _ _ _ _ _

theorem gm13_xor (x y : Nat) (hx : x < 256) (hy : y < 256) :
    gm13 (x ^^^ y) = gm13 x ^^^ gm13 y := by
  unfold gm13
  rw [xtime_xor x y hx hy, xtime_xor _ _ (xtime_lt _) (xtime_lt _),
      xtime_xor _ _ (xtime_lt _) (xtime_lt _)]
  exact xor_mix3 _ _ _ _ _ _

theorem gm14_xor (x y : Nat) (hx : x < 256) (hy : y < 256) :
    gm14 (x ^^^ y) = gm14 x ^^^ gm14 y := by
  unfold gm14
  rw [xtime_xor x y hx hy, xtime_xor _ _ (xtime_lt _) (xtime_lt _),
      xtime_xor _ _ (xtime_lt _) (xtime_lt _)]
  exact xor_mix3 _ _ _ _ _ _

theorem lin4 (g : Nat → Nat)
    (hg : ∀ x y : Nat, x < 256 → y < 256 → g (x ^^^ y) = g x ^^^ g y)
    (w x y z : Nat) (hw : w < 256) (hx : x < 256) (hy : y < 256) (hz : z < 256) :
    g (w ^^^ x ^^^ y ^^^ z) = g w ^^^ g x ^^^ g y ^^^ g z := by
  rw [hg _ _ (xor_lt_256 (xor_lt_256 hw hx) hy) hz,
      hg _ _ (xor_lt_256 hw hx) hy, hg _ _ hw hx]

/-! ### Inverse MDS matrix times forward MDS matrix is the identity,
checked per coefficient by exhaustive evaluation over one byte -/

set_option maxRecDepth 10000 in
theorem invSbox_sbox : ∀ b < 256, invSbox (sbox b) = b := by decide

set_option maxRecDepth 10000 in
theorem coef0a : ∀ v < 256, gm14 (gm2 v) ^^^ gm11 v ^^^ gm13 v ^^^ gm9 (gm3 v) = v := by decide

set_option maxRecDepth 10000 in
theorem coef0b : ∀ v < 256, gm14 (gm3 v) ^^^ gm11 (gm2 v) ^^^ gm13 v ^^^ gm9 v = 0 := by decide

set_option maxRecDepth 10000 in
theorem coef0c : ∀ v < 256, gm14 v ^^^ gm11 (gm3 v) ^^^ gm13 (gm2 v) ^^^ gm9 v = 0 := by decide

set_option maxRecDepth 10000 in
theorem coef0d : ∀ v < 256, gm14 v ^^^ gm11 v ^^^ gm13 (gm3 v) ^^^ gm9 (gm2 v) = 0 := by decide

set_option maxRecDepth 10000 in
theorem coef1a : ∀ v < 256, gm9 (gm2 v) ^^^ gm14 v ^^^ gm11 v ^^^ gm13 (gm3 v) = 0 := by decide

set_option maxRecDepth 10000 in
theorem coef1b : ∀ v < 256, gm9 (gm3 v) ^^^ gm14 (gm2 v) ^^^ gm11 v ^^^ gm13 v = v := by decide

set_option maxRecDepth 10000 in
theorem coef1c : ∀ v < 256, gm9 v ^^^ gm14 (gm3 v) ^^^ gm11 (gm2 v) ^^^ gm13 v = 0 := by decide

set_option maxRecDepth 10000 in
theorem coef1d : ∀ v < 256, gm9 v ^^^ gm14 v ^^^ gm11 (gm3 v) ^^^ gm13 (gm2 v) = 0 := by decide

set_option maxRecDepth 10000 in
theorem coef2a : ∀ v < 256, gm13 (gm2 v) ^^^ gm9 v ^^^ gm14 v ^^^ gm11 (gm3 v) = 0 := by decide

set_option maxRecDepth 10000 in
theorem coef2b : ∀ v < 256, gm13 (gm3 v) ^^^ gm9 (gm2 v) ^^^ gm14 v ^^^ gm11 v = 0 := by decide

set_option maxRecDepth 10000 in
theorem coef2c : ∀ v < 256, gm13 v ^^^ gm9 (gm3 v) ^^^ gm14 (gm2 v) ^^^ gm11 v = v := by decide

set_option maxRecDepth 10000 in
theorem coef2d : ∀ v < 256, gm13 v ^^^ gm9 v ^^^ gm14 (gm3 v) ^^^ gm11 (gm2 v) = 0 := by decide

set_option maxRecDepth 10000 in
theorem coef3a : ∀ v < 256, gm11 (gm2 v) ^^^ gm13 v ^^^ gm9 v ^^^ gm14 (gm3 v) = 0 := by decide

set_option maxRecDepth 10000 in
theorem coef3b : ∀ v < 256, gm11 (gm3 v) ^^^ gm13 (gm2 v) ^^^ gm9 v ^^^ gm14 v = 0 := by decide

set_option maxRecDepth 10000 in
theorem coef3c : ∀ v < 256, gm11 v ^^^ gm13 (gm3 v) ^^^ gm9 (gm2 v) ^^^ gm14 v = 0 := by decide

set_option maxRecDepth 10000 in
theorem coef3d : ∀ v < 256, gm11 v ^^^ gm13 v ^^^ gm9 (gm3 v) ^^^ gm14 (gm2 v) = v := by decide

theorem xor_transpose (a11 a12 a13 a14 a21 a22 a23 a24
    a31 a32 a33 a34 a41 a42 a43 a44 : Nat) :
    (a11 ^^^ a12 ^^^ a13 ^^^ a14) ^^^ (a21 ^^^ a22 ^^^ a23 ^^^ a24) ^^^
    (a31 ^^^ a32 ^^^ a33 ^^^ a34) ^^^ (a41 ^^^ a42 ^^^ a43 ^^^ a44) =
    (a11 ^^^ a21 ^^^ a31 ^^^ a41) ^^^ (a12 ^^^ a22 ^^^ a32 ^^^ a42) ^^^
    (a13 ^^^ a23 ^^^ a33 ^^^ a43) ^^^ (a14 ^^^ a24 ^^^ a34 ^^^ a44) := by
  simp only [Nat.xor_assoc]
  simp [Nat.xor_comm, xor_left_comm]

theorem invMixCol_mixCol (a b c d : Nat)
    (ha : a < 256) (hb : b < 256) (hc : c < 256) (hd : d < 256) :
    invMixCol (gm2 a ^^^ gm3 b ^^^ c ^^^ d) (a ^^^ gm2 b ^^^ gm3 c ^^^ d)
      (a ^^^ b ^^^ gm2 c ^^^ gm3 d) (gm3 a ^^^ b ^^^ c ^^^ gm2 d) = [a, b, c, d] := by
  have e00 := lin4 gm14 gm14_xor (gm2 a) (gm3 b) c d (gm2_lt a) (gm3_lt b hb) hc hd
  have e01 := lin4 gm11 gm11_xor a (gm2 b) (gm3 c) d ha (gm2_lt b) (gm3_lt c hc) hd
  have e02 := lin4 gm13 gm13_xor a b (gm2 c) (gm3 d) ha hb (gm2_lt c) (gm3_lt d hd)
  have e03 := lin4 gm9 gm9_xor (gm3 a) b c (gm2 d) (gm3_lt a ha) hb hc (gm2_lt d)
  have e10 := lin4 gm9 gm9_xor (gm2 a) (gm3 b) c d (gm2_lt a) (gm3_lt b hb) hc hd
  have e11 := lin4 gm14 gm14_xor a (gm2 b) (gm3 c) d ha (gm2_lt b) (gm3_lt c hc) hd
  have e12 := lin4 gm11 gm11_xor a b (gm2 c) (gm3 d) ha hb (gm2_lt c) (gm3_lt d hd)
  have e13 := lin4 gm13 gm13_xor (gm3 a) b c (gm2 d) (gm3_lt a ha) hb hc (gm2_lt d)
  have e20 := lin4 gm13 gm13_xor (gm2 a) (gm3 b) c d (gm2_lt a) (gm3_lt b hb) hc hd
  have e21 := lin4 gm9 gm9_xor a (gm2 b) (gm3 c) d ha (gm2_lt b) (gm3_lt c hc) hd
  have e22 := lin4 gm14 gm14_xor a b (gm2 c) (gm3 d) ha hb (gm2_lt c) (gm3_lt d hd)
  have e23 := lin4 gm11 gm11_xor (gm3 a) b c (gm2 d) (gm3_lt a ha) hb hc (gm2_lt d)
  have e30 := lin4 gm11 gm11_xor (gm2 a) (gm3 b) c d (gm2_lt a) (gm3_lt b hb) hc hd
  have e31 := lin4 gm13 gm13_xor a (gm2 b) (gm3 c) d ha (gm2_lt b) (gm3_lt c hc) hd
  have e32 := lin4 gm9 gm9_xor a b (gm2 c) (gm3 d) ha hb (gm2_lt c) (gm3_lt d hd)
  have e33 := lin4 gm14 gm14_xor (gm3 a) b c (gm2 d) (gm3_lt a ha) hb hc (gm2_lt d)
  unfold invMixCol
  simp only [List.cons.injEq, and_true]
  refine ⟨?_, ?_, ?_, ?_⟩
  · rw [e00, e01, e02, e03, xor_transpose,
        coef0a a ha, coef0b b hb, coef0c c hc, coef0d d hd]
    simp
  · rw [e10, e11, e12, e13, xor_transpose,
        coef1a a ha, coef1b b hb, coef1c c hc, coef1d d hd]
    simp
  · rw [e20, e21, e22, e23, xor_transpose,
        coef2a a ha, coef2b b hb, coef2c c hc, coef2d d hd]
    simp
  · rw [e30, e31, e32, e33, xor_transpose,
        coef3a a ha, coef3b b hb, coef3c c hc, coef3d d hd]
    simp

/-! ### List helper lemmas -/

theorem cons_of_len {α : Type} (s : List α) (n : Nat) (h : s.length = n + 1) :
    ∃ x t, s = x :: t ∧ t.length = n := by
  cases s with
  | nil => simp at h
  | cons x t => exact ⟨x, t, rfl, by simpa using h⟩

theorem list16 (s : List Nat) (h : s.length = 16) :
    ∃ a0 a1 a2 a3 a4 a5 a6 a7 a8 a9 a10 a11 a12 a13 a14 a15,
      s = [a0,a1,a2,a3,a4,a5,a6,a7,a8,a9,a10,a11,a12,a13,a14,a15] := by
  obtain ⟨a0, s, rfl, h1⟩ := cons_of_len s 15 h
  obtain ⟨a1, s, rfl, h2⟩ := cons_of_len s 14 h1
  obtain ⟨a2, s, rfl, h3⟩ := cons_of_len s 13 h2
  obtain ⟨a3, s, rfl, h4⟩ := cons_of_len s 12 h3
  obtain ⟨a4, s, rfl, h5⟩ := cons_of_len s 11 h4
  obtain ⟨a5, s, rfl, h6⟩ := cons_of_len s 10 h5
  obtain ⟨a6, s, rfl, h7⟩ := cons_of_len s 9 h6
  obtain ⟨a7, s, rfl, h8⟩ := cons_of_len s 8 h7
  obtain ⟨a8, s, rfl, h9⟩ := cons_of_len s 7 h8
  obtain ⟨a9, s, rfl, h10⟩ := cons_of_len s 6 h9
  obtain ⟨a10, s, rfl, h11⟩ := cons_of_len s 5 h10
  obtain ⟨a11, s, rfl, h12⟩ := cons_of_len s 4 h11
  obtain ⟨a12, s, rfl, h13⟩ := cons_of_len s 3 h12
  obtain ⟨a13, s, rfl, h14⟩ := cons_of_len s 2 h13
  obtain ⟨a14, s, rfl, h15⟩ := cons_of_len s 1 h14
  obtain ⟨a15, s, rfl, h16⟩ := cons_of_len s 0 h15
  obtain rfl : s = [] := List.eq_nil_of_length_eq_zero h16
  exact ⟨a0,a1,a2,a3,a4,a5,a6,a7,a8,a9,a10,a11,a12,a13,a14,a15, rfl⟩

theorem list4 (s : List Nat) (h : s.length = 4) :
    ∃ a0 a1 a2 a3, s = [a0,a1,a2,a3] := by
  obtain ⟨a0, s, rfl, h1⟩ := cons_of_len s 3 h
  obtain ⟨a1, s, rfl, h2⟩ := cons_of_len s 2 h1
  obtain ⟨a2, s, rfl, h3⟩ := cons_of_len s 1 h2
  obtain ⟨a3, s, rfl, h4⟩ := cons_of_len s 0 h3
  obtain rfl : s = [] := List.eq_nil_of_length_eq_zero h4
  exact ⟨a0,a1,a2,a3, rfl⟩

theorem zipXor_length (a b : List Nat) :
    (zipXor a b).length = min a.length b.length := by
  simp [zipXor]

theorem zipXor_cancel : ∀ (a k : List Nat), a.length = k.length →
    zipXor (zipXor a k) k = a := by
  intro a
  induction a with
  | nil => intro k h; simp [zipXor]
  | cons x t ih =>
    intro k h
    cases k with
    | nil => simp at h
    | cons y u =>
      simp only [zipXor, List.zipWith] at *
      rw [Nat.xor_assoc, Nat.xor_self, Nat.xor_zero]
      exact congrArg _ (ih u (by simpa using h))

theorem zipXor_bytes : ∀ (a b : List Nat), allBytes a → allBytes b →
    allBytes (zipXor a b) := by
  intro a
  induction a with
  | nil => intro b _ _; simp [zipXor, allBytes]
  | cons x t ih =>
    intro b ha hb
    cases b with
    | nil => simp [zipXor, allBytes]
    | cons y u =>
      intro v hv
      simp only [zipXor, List.zipWith, List.mem_cons] at hv
      rcases hv with rfl | hv
      · exact xor_lt_256 (ha x (by simp)) (hb y (by simp))
      · exact ih u (fun w hw => ha w (by simp [hw])) (fun w hw => hb w (by simp [hw])) v hv

theorem zipXor_zeros : ∀ (l : List Nat) (n : Nat), l.length ≤ n →
    zipXor l (List.replicate n 0) = l := by
  intro l
  induction l with
  | nil => intro n _; simp [zipXor]
  | cons x t ih =>
    intro n h
    cases n with
    | zero => simp at h
    | succ m =>
      simp only [List.replicate, zipXor, List.zipWith, Nat.xor_zero]
      exact congrArg _ (ih m (by simpa using h))

theorem getD_lt_256 (l : List Nat) (h : allBytes l) (i : Nat) :
    l.getD i 0 < 256 := by
  by_cases hi : i < l.length
  · rw [List.getD_eq_getElem l 0 hi]
    exact h _ (List.getElem_mem hi)
  · rw [List.getD_eq_default l 0 (Nat.le_of_not_lt hi)]
    norm_num

/-! ### State-level inverse lemmas for the AES round transforms -/

theorem invSubBytes_subBytes (s : List Nat) (hb : allBytes s) :
    invSubBytes (subBytes s) = s := by
  induction s with
  | nil => rfl
  | cons x t ih =>
    simp only [subBytes, invSubBytes, List.map] at *
    rw [invSbox_sbox x (hb x (by simp)), ih (fun w hw => hb w (by simp [hw]))]

theorem invShiftRows_shiftRows (s : List Nat) (h : s.length = 16) :
    invShiftRows (shiftRows s) = s := by
  obtain ⟨a0,a1,a2,a3,a4,a5,a6,a7,a8,a9,a10,a11,a12,a13,a14,a15, rfl⟩ := list16 s h
  rfl

theorem invMixColumns_mixColumns (s : List Nat) (h : s.length = 16)
    (hb : allBytes s) : invMixColumns (mixColumns s) = s := by
  obtain ⟨a0,a1,a2,a3,a4,a5,a6,a7,a8,a9,a10,a11,a12,a13,a14,a15, rfl⟩ := list16 s h
  have hB : ∀ i, i < 16 →
      [a0,a1,a2,a3,a4,a5,a6,a7,a8,a9,a10,a11,a12,a13,a14,a15].getD i 0 < 256 :=
    fun i _ => getD_lt_256 _ hb i
  have h0 := hB 0 (by norm_num); have h1 := hB 1 (by norm_num)
  have h2 := hB 2 (by norm_num); have h3 := hB 3 (by norm_num)
  have h4 := hB 4 (by norm_num); have h5 := hB 5 (by norm_num)
  have h6 := hB 6 (by norm_num); have h7 := hB 7 (by norm_num)
  have h8 := hB 8 (by norm_num); have h9 := hB 9 (by norm_num)
  have h10 := hB 10 (by norm_num); have h11 := hB 11 (by norm_num)
  have h12 := hB 12 (by norm_num); have h13 := hB 13 (by norm_num)
  have h14 := hB 14 (by norm_num); have h15 := hB 15 (by norm_num)
  simp only [List.getD] at h0 h1 h2 h3 h4 h5 h6 h7 h8 h9 h10 h11 h12 h13 h14 h15
  show invMixColumns (mixCol a0 a1 a2 a3 ++ mixCol a4 a5 a6 a7 ++
    mixCol a8 a9 a10 a11 ++ mixCol a12 a13 a14 a15) = _
  simp only [mixCol, List.cons_append, List.nil_append]
  show invMixCol _ _ _ _ ++ invMixCol _ _ _ _ ++ invMixCol _ _ _ _ ++ invMixCol _ _ _ _ = _
  rw [invMixCol_mixCol a0 a1 a2 a3 h0 h1 h2 h3,
      invMixCol_mixCol a4 a5 a6 a7 h4 h5 h6 h7,
      invMixCol_mixCol a8 a9 a10 a11 h8 h9 h10 h11,
      invMixCol_mixCol a12 a13 a14 a15 h12 h13 h14 h15]
  rfl

/-! ### Well-formedness of the key schedule -/

theorem rconVal_lt : ∀ n, rconVal n < 256 := by
  intro n
  cases n with
  | zero => decide
  | succ m => exact xtime_lt _

theorem getD_mem {α : Type} (l : List α) (i : Nat) (d : α) (h : i < l.length) :
    l.getD i d ∈ l := by
  rw [List.getD_eq_getElem l d h]
  exact List.getElem_mem h

theorem revWords_length (key : List Nat) : ∀ n, (revWords key n).length = n := by
  intro n
  induction n with
  | zero => rfl
  | succ m ih =>
    unfold revWords
    split <;> simp [ih]

theorem rotWord_ok (w : List Nat) (h : w.length = 4) (hb : allBytes w) :
    (rotWord w).length = 4 ∧ allBytes (rotWord w) := by
  obtain ⟨a0,a1,a2,a3, rfl⟩ := list4 w h
  refine ⟨rfl, ?_⟩
  intro v hv
  simp only [rotWord, List.mem_cons] at hv
  rcases hv with rfl|rfl|rfl|rfl|hv
  · exact hb _ (by simp)
  · exact hb _ (by simp)
  · exact hb _ (by simp)
  · exact hb _ (by simp)
  · simp at hv

theorem subWord_ok (w : List Nat) (h : w.length = 4) :
    (subWord w).length = 4 ∧ allBytes (subWord w) := by
  refine ⟨by simp [subWord, h], ?_⟩
  intro v hv
  simp only [subWord, List.mem_map] at hv
  obtain ⟨x, _, rfl⟩ := hv
  exact sbox_lt x

theorem revWords_words (key : List Nat) (hk : key.length = 16) (hb : allBytes key) :
    ∀ n, ∀ w ∈ revWords key n, w.length = 4 ∧ allBytes w := by
  intro n
  induction n with
  | zero => intro w hw; simp [revWords] at hw
  | succ m ih =>
    intro w hw
    by_cases hc : m + 1 ≤ 4
    · unfold revWords at hw
      rw [if_pos hc] at hw
      rcases List.mem_cons.mp hw with rfl | hw
      · constructor
        · simp [List.length_take, List.length_drop, hk]
          omega
        · intro v hv
          exact hb v (List.mem_of_mem_drop (List.mem_of_mem_take hv))
      · exact ih w hw
    · unfold revWords at hw
      rw [if_neg hc] at hw
      have hm4 : 4 ≤ m := by omega
      have hlen : (revWords key m).length = m := revWords_length key m
      have hLast := ih _ (getD_mem (revWords key m) 0 [] (by omega))
      have hBack := ih _ (getD_mem (revWords key m) 3 [] (by omega))
      rcases List.mem_cons.mp hw with rfl | hw
      · have hrot := rotWord_ok _ hLast.1 hLast.2
        have hsub := subWord_ok (rotWord ((revWords key m).getD 0 [])) hrot.1
        split
        · constructor
          · rw [zipXor_length, zipXor_length, hBack.1, hsub.1]
            simp
          · refine zipXor_bytes _ _ hBack.2 (zipXor_bytes _ _ hsub.2 ?_)
            intro v hv
            simp only [List.mem_cons] at hv
            rcases hv with rfl|rfl|rfl|rfl|hv
            · exact rconVal_lt _
            · norm_num
            · norm_num
            · norm_num
            · simp at hv
        · constructor
          · rw [zipXor_length, hBack.1, hLast.1]
            simp
          · exact zipXor_bytes _ _ hBack.2 hLast.2
      · exact ih w hw

theorem flatten_length_four : ∀ (L : List (List Nat)), (∀ w ∈ L, w.length = 4) →
    L.flatten.length = 4 * L.length := by
  intro L
  induction L with
  | nil => intro _; rfl
  | cons w t ih =>
    intro h
    simp only [List.flatten, List.length_append, List.length_cons]
    rw [h w (by simp), ih (fun v hv => h v (by simp [hv]))]
    ring

theorem expandKey_length (key : List Nat) (hk : key.length = 16) (hb : allBytes key) :
    (expandKey key).length = 176 := by
  unfold expandKey
  rw [flatten_length_four]
  · simp [revWords_length]
  · intro w hw
    exact (revWords_words key hk hb 44 w (List.mem_reverse.mp hw)).1

theorem expandKey_bytes (key : List Nat) (hk : key.length = 16) (hb : allBytes key) :
    allBytes (expandKey key) := by
  intro v hv
  unfold expandKey at hv
  obtain ⟨w, hw, hvw⟩ := List.mem_flatten.mp hv
  exact (revWords_words key hk hb 44 w (List.mem_reverse.mp hw)).2 v hvw

theorem roundKey_ok (ek : List Nat) (hlen : ek.length = 176) (hbytes : allBytes ek)
    (r : Nat) (hr : r ≤ 10) :
    (roundKey ek r).length = 16 ∧ allBytes (roundKey ek r) := by
  constructor
  · simp [roundKey, hlen]
    omega
  · intro v hv
    exact hbytes v (List.mem_of_mem_drop (List.mem_of_mem_take hv))

theorem aesKf_ok (key : List Nat) (hk : key.length = 16) (hb : allBytes key) :
    ∀ r, r ≤ 10 → (roundKey (expandKey key) r).length = 16 ∧
      allBytes (roundKey (expandKey key) r) :=
  fun r hr => roundKey_ok _ (expandKey_length key hk hb) (expandKey_bytes key hk hb) r hr

/-! ### Round invariants and the generic round trip -/

theorem subBytes_length (s : List Nat) : (subBytes s).length = s.length := by
  simp [subBytes]

theorem subBytes_bytes (s : List Nat) : allBytes (subBytes s) := by
  intro v hv
  simp only [subBytes, List.mem_map] at hv
  obtain ⟨x, _, rfl⟩ := hv
  exact sbox_lt x

theorem shiftRows_length (s : List Nat) (h : s.length = 16) :
    (shiftRows s).length = 16 := by
  obtain ⟨a0,a1,a2,a3,a4,a5,a6,a7,a8,a9,a10,a11,a12,a13,a14,a15, rfl⟩ := list16 s h
  rfl

theorem allBytes_cons (x : Nat) (t : List Nat) :
    allBytes (x :: t) ↔ x < 256 ∧ allBytes t := by
  simp [allBytes]

theorem shiftRows_bytes (s : List Nat) (h : s.length = 16) (hb : allBytes s) :
    allBytes (shiftRows s) := by
  obtain ⟨a0,a1,a2,a3,a4,a5,a6,a7,a8,a9,a10,a11,a12,a13,a14,a15, rfl⟩ := list16 s h
  intro v hv
  simp only [shiftRows, List.mem_cons] at hv
  rcases hv with rfl|rfl|rfl|rfl|rfl|rfl|rfl|rfl|rfl|rfl|rfl|rfl|rfl|rfl|rfl|rfl|hv <;>
    first
    | simp at hv
    | exact hb _ (by simp)

theorem mixCol_length (a b c d : Nat) : (mixCol a b c d).length = 4 := rfl

theorem mixCol_bytes (a b c d : Nat)
    (ha : a < 256) (hb : b < 256) (hc : c < 256) (hd : d < 256) :
    allBytes (mixCol a b c d) := by
  intro v hv
  simp only [mixCol, List.mem_cons] at hv
  rcases hv with rfl|rfl|rfl|rfl|hv
  · exact xor_lt_256 (xor_lt_256 (xor_lt_256 (gm2_lt a) (gm3_lt b hb)) hc) hd
  · exact xor_lt_256 (xor_lt_256 (xor_lt_256 ha (gm2_lt b)) (gm3_lt c hc)) hd
  · exact xor_lt_256 (xor_lt_256 (xor_lt_256 ha hb) (gm2_lt c)) (gm3_lt d hd)
  · exact xor_lt_256 (xor_lt_256 (xor_lt_256 (gm3_lt a ha) hb) hc) (gm2_lt d)
  · simp at hv

theorem allBytes_append (x y : List Nat) :
    allBytes (x ++ y) ↔ allBytes x ∧ allBytes y := by
  simp only [allBytes, List.mem_append]
  constructor
  · intro h
    exact ⟨fun v hv => h v (Or.inl hv), fun v hv => h v (Or.inr hv)⟩
  · intro h v hv
    rcases hv with hv | hv
    · exact h.1 v hv
    · exact h.2 v hv

theorem mixColumns_length (s : List Nat) (h : s.length = 16) :
    (mixColumns s).length = 16 := by
  obtain ⟨a0,a1,a2,a3,a4,a5,a6,a7,a8,a9,a10,a11,a12,a13,a14,a15, rfl⟩ := list16 s h
  rfl

theorem mixColumns_bytes (s : List Nat) (h : s.length = 16) (hby : allBytes s) :
    allBytes (mixColumns s) := by
  obtain ⟨a0,a1,a2,a3,a4,a5,a6,a7,a8,a9,a10,a11,a12,a13,a14,a15, rfl⟩ := list16 s h
  have h0 : a0 < 256 := hby a0 (by simp)
  have h1 : a1 < 256 := hby a1 (by simp)
  have h2 : a2 < 256 := hby a2 (by simp)
  have h3 : a3 < 256 := hby a3 (by simp)
  have h4 : a4 < 256 := hby a4 (by simp)
  have h5 : a5 < 256 := hby a5 (by simp)
  have h6 : a6 < 256 := hby a6 (by simp)
  have h7 : a7 < 256 := hby a7 (by simp)
  have h8 : a8 < 256 := hby a8 (by simp)
  have h9 : a9 < 256 := hby a9 (by simp)
  have h10 : a10 < 256 := hby a10 (by simp)
  have h11 : a11 < 256 := hby a11 (by simp)
  have h12 : a12 < 256 := hby a12 (by simp)
  have h13 : a13 < 256 := hby a13 (by simp)
  have h14 : a14 < 256 := hby a14 (by simp)
  have h15 : a15 < 256 := hby a15 (by simp)
  show allBytes (mixCol a0 a1 a2 a3 ++ mixCol a4 a5 a6 a7 ++
    mixCol a8 a9 a10 a11 ++ mixCol a12 a13 a14 a15)
  rw [allBytes_append, allBytes_append, allBytes_append]
  exact ⟨⟨⟨mixCol_bytes a0 a1 a2 a3 h0 h1 h2 h3, mixCol_bytes a4 a5 a6 a7 h4 h5 h6 h7⟩,
    mixCol_bytes a8 a9 a10 a11 h8 h9 h10 h11⟩, mixCol_bytes a12 a13 a14 a15 h12 h13 h14 h15⟩

theorem mainRounds_ok (kf : Nat → List Nat)
    (hkf : ∀ r, r ≤ 10 → (kf r).length = 16 ∧ allBytes (kf r)) :
    ∀ r, r ≤ 9 → ∀ s, s.length = 16 → allBytes s →
      (mainRounds kf r s).length = 16 ∧ allBytes (mainRounds kf r s) := by
  intro r
  induction r with
  | zero => intro _ s h hb; exact ⟨h, hb⟩
  | succ m ih =>
    intro hm s h hb
    have hM := ih (by omega) s h hb
    have hSB : (subBytes (mainRounds kf m s)).length = 16 := by
      rw [subBytes_length, hM.1]
    have hSR := shiftRows_length _ hSB
    have hSRb := shiftRows_bytes _ hSB (subBytes_bytes _)
    have hMC := mixColumns_length _ hSR
    have hMCb := mixColumns_bytes _ hSR hSRb
    have hk := hkf (m+1) (by omega)
    show (zipXor (mixColumns (shiftRows (subBytes (mainRounds kf m s)))) (kf (m+1))).length = 16 ∧ _
    constructor
    · rw [zipXor_length, hMC, hk.1]
      omega
    · exact zipXor_bytes _ _ hMCb hk.2

theorem decMainRounds_mainRounds (kf : Nat → List Nat)
    (hkf : ∀ r, r ≤ 10 → (kf r).length = 16 ∧ allBytes (kf r)) :
    ∀ r, r ≤ 9 → ∀ s, s.length = 16 → allBytes s →
      decMainRounds kf r (mainRounds kf r s) = s := by
  intro r
  induction r with
  | zero => intro _ s _ _; rfl
  | succ m ih =>
    intro hm s h hb
    have hM := mainRounds_ok kf hkf m (by omega) s h hb
    have hSB : (subBytes (mainRounds kf m s)).length = 16 := by
      rw [subBytes_length, hM.1]
    have hSR := shiftRows_length _ hSB
    have hSRb := shiftRows_bytes _ hSB (subBytes_bytes _)
    have hMC := mixColumns_length _ hSR
    have hk := hkf (m+1) (by omega)
    show decMainRounds kf m (invSubBytes (invShiftRows (invMixColumns
      (zipXor (zipXor (mixColumns (shiftRows (subBytes (mainRounds kf m s)))) (kf (m+1)))
        (kf (m+1)))))) = s
    rw [zipXor_cancel _ _ (by rw [hMC, hk.1]),
        invMixColumns_mixColumns _ hSR hSRb,
        invShiftRows_shiftRows _ hSB,
        invSubBytes_subBytes _ hM.2]
    exact ih (by omega) s h hb

theorem cipherEncrypt_ok (kf : Nat → List Nat)
    (hkf : ∀ r, r ≤ 10 → (kf r).length = 16 ∧ allBytes (kf r))
    (block : List Nat) (h : block.length = 16) :
    (cipherEncrypt kf block).length = 16 ∧ allBytes (cipherEncrypt kf block) := by
  have hk0 := hkf 0 (by omega)
  have hk10 := hkf 10 (by omega)
  have hs0 : (zipXor block (kf 0)).length = 16 := by
    rw [zipXor_length, h, hk0.1]
    omega
  have hs0b : allBytes (zipXor block (kf 0)) → True := fun _ => trivial
  by_cases hbb : allBytes block
  · have hM := mainRounds_ok kf hkf 9 (by omega) _ hs0 (zipXor_bytes _ _ hbb hk0.2)
    have hSB : (subBytes (mainRounds kf 9 (zipXor block (kf 0)))).length = 16 := by
      rw [subBytes_length, hM.1]
    constructor
    · show (zipXor (shiftRows (subBytes _)) (kf 10)).length = 16
      rw [zipXor_length, shiftRows_length _ hSB, hk10.1]
      omega
    · exact zipXor_bytes _ _ (shiftRows_bytes _ hSB (subBytes_bytes _)) hk10.2
  · constructor
    · show (zipXor (shiftRows (subBytes (mainRounds kf 9 (zipXor block (kf 0))))) (kf 10)).length = 16
      have hW : ∀ r, r ≤ 9 → ∀ s : List Nat, s.length = 16 →
          (mainRounds kf r s).length = 16 := by
        intro r
        induction r with
        | zero => intro _ s hs; exact hs
        | succ m ihm =>
          intro hm s hs
          show (zipXor (mixColumns (shiftRows (subBytes (mainRounds kf m s)))) (kf (m+1))).length = 16
          have h1 : (subBytes (mainRounds kf m s)).length = 16 := by
            rw [subBytes_length, ihm (by omega) s hs]
          rw [zipXor_length, mixColumns_length _ (shiftRows_length _ h1),
            (hkf (m+1) (by omega)).1]
          omega
      rw [zipXor_length, shiftRows_length _ (by rw [subBytes_length, hW 9 (by omega) _ hs0]),
        hk10.1]
      omega
    · exact zipXor_bytes _ _ (shiftRows_bytes _ (by
        have hW : ∀ r, r ≤ 9 → ∀ s : List Nat, s.length = 16 →
            (mainRounds kf r s).length = 16 := by
          intro r
          induction r with
          | zero => intro _ s hs; exact hs
          | succ m ihm =>
            intro hm s hs
            show (zipXor (mixColumns (shiftRows (subBytes (mainRounds kf m s)))) (kf (m+1))).length = 16
            have h1 : (subBytes (mainRounds kf m s)).length = 16 := by
              rw [subBytes_length, ihm (by omega) s hs]
            rw [zipXor_length, mixColumns_length _ (shiftRows_length _ h1),
              (hkf (m+1) (by omega)).1]
            omega
        rw [subBytes_length, hW 9 (by omega) _ hs0]) (subBytes_bytes _)) hk10.2

theorem cipherDecrypt_cipherEncrypt (kf : Nat → List Nat)
    (hkf : ∀ r, r ≤ 10 → (kf r).length = 16 ∧ allBytes (kf r))
    (block : List Nat) (h : block.length = 16) (hb : allBytes block) :
    cipherDecrypt kf (cipherEncrypt kf block) = block := by
  have hk0 := hkf 0 (by omega)
  have hk10 := hkf 10 (by omega)
  have hs0 : (zipXor block (kf 0)).length = 16 := by
    rw [zipXor_length, h, hk0.1]
    omega
  have hs0b := zipXor_bytes _ _ hb hk0.2
  have hM := mainRounds_ok kf hkf 9 (by omega) _ hs0 hs0b
  have hSB : (subBytes (mainRounds kf 9 (zipXor block (kf 0)))).length = 16 := by
    rw [subBytes_length, hM.1]
  show zipXor (decMainRounds kf 9 (invSubBytes (invShiftRows
    (zipXor (zipXor (shiftRows (subBytes (mainRounds kf 9 (zipXor block (kf 0))))) (kf 10))
      (kf 10))))) (kf 0) = block
  rw [zipXor_cancel _ _ (by rw [shiftRows_length _ hSB, hk10.1]),
      invShiftRows_shiftRows _ hSB,
      invSubBytes_subBytes _ hM.2,
      decMainRounds_mainRounds kf hkf 9 (by omega) _ hs0 hs0b,
      zipXor_cancel _ _ (by rw [h, hk0.1])]

/-! ### Bit-level lemmas for the prefix-preserving construction -/

theorem bitVal (x i : Nat) : (x >>> i) &&& 1 = (x.testBit i).toNat := by
  rw [Nat.and_one_is_mod, Nat.shiftRight_eq_div_pow, Nat.testBit_to_div_mod]
  rcases Nat.mod_two_eq_zero_or_one (x / 2^i) with h|h <;> simp [h]

theorem getBit_lt (data : List Nat) (pos : Nat) : getBit data pos < 2 := by
  unfold getBit
  exact Nat.lt_succ_of_le Nat.and_le_right

theorem setBit_length (l : List Nat) (pos v : Nat) :
    (setBit l pos v).length = l.length := by
  simp [setBit]

theorem two_pow_bitIndex_lt (pos : Nat) : 1 <<< (pos % 8) < 256 := by
  rw [Nat.shiftLeft_eq, Nat.one_mul]
  calc 2 ^ (pos % 8) ≤ 2 ^ 7 := Nat.pow_le_pow_right (by norm_num) (by omega)
  _ < 256 := by norm_num

theorem setBit_bytes (l : List Nat) (pos v : Nat) (hb : allBytes l) :
    allBytes (setBit l pos v) := by
  intro w hw
  unfold setBit at hw
  rcases List.mem_or_eq_of_mem_set hw with hw | rfl
  · exact hb w hw
  · split
    · have h256 : (256:Nat) = 2^8 := by norm_num
      rw [h256]
      refine Nat.or_lt_two_pow ?_ ?_
      · rw [← h256]; exact getD_lt_256 l hb _
      · rw [← h256]; exact two_pow_bitIndex_lt pos
    · exact Nat.lt_of_le_of_lt Nat.and_le_left (getD_lt_256 l hb _)

theorem getD_set_self (l : List Nat) (i v : Nat) (h : i < l.length) :
    (l.set i v).getD i 0 = v := by
  rw [List.getD_eq_getElem _ _ (by simpa using h)]
  exact List.getElem_set_self _

theorem getD_set_ne (l : List Nat) (i j v : Nat) (h : i ≠ j) :
    (l.set i v).getD j 0 = l.getD j 0 := by
  simp only [List.getD, List.get?_eq_getElem?, List.getElem?_set_ne h]

theorem testBit_255 (i : Nat) (h : i < 8) : (255 : Nat).testBit i = true := by
  have h255 : (255:Nat) = 2^8 - 1 := by norm_num
  rw [h255, Nat.testBit_two_pow_sub_one]
  simpa using h

theorem getBit_setBit_same (l : List Nat) (pos v : Nat) (hl : l.length = 16)
    (hp : pos < 128) (hv : v < 2) : getBit (setBit l pos v) pos = v := by
  have hidx : 15 - pos / 8 < l.length := by rw [hl]; omega
  unfold getBit setBit
  rw [getD_set_self _ _ _ hidx, bitVal]
  interval_cases v
  · simp only [ne_eq, not_true_eq_false, if_false, Nat.testBit_and, Nat.testBit_xor,
      Nat.shiftLeft_eq, Nat.one_mul, Nat.testBit_two_pow_self,
      testBit_255 _ (Nat.mod_lt _ (by norm_num))]
    simp
  · simp only [ne_eq, one_ne_zero, not_false_eq_true, if_true, Nat.testBit_or,
      Nat.shiftLeft_eq, Nat.one_mul, Nat.testBit_two_pow_self]
    simp

theorem getBit_setBit_ne (l : List Nat) (p q v : Nat) (hl : l.length = 16)
    (hp : p < 128) (hq : q < 128) (hne : p ≠ q) :
    getBit (setBit l q v) p = getBit l p := by
  by_cases hbyte : 15 - q / 8 = 15 - p / 8
  · have hdiv : q / 8 = p / 8 := by omega
    have hbit : p % 8 ≠ q % 8 := by
      have h1 := Nat.div_add_mod p 8
      have h2 := Nat.div_add_mod q 8
      omega
    have hidx : 15 - q / 8 < l.length := by rw [hl]; omega
    unfold getBit setBit
    rw [← hbyte, getD_set_self _ _ _ hidx, bitVal, bitVal]
    have htp : ((1 <<< (q % 8)) : Nat).testBit (p % 8) = false := by
      rw [Nat.shiftLeft_eq, Nat.one_mul, Nat.testBit_two_pow]
      simpa using fun h => hbit h.symm
    split
    · rw [Nat.testBit_or, htp, Bool.or_false]
    · rw [Nat.testBit_and, Nat.testBit_xor, htp,
        testBit_255 _ (Nat.mod_lt _ (by norm_num))]
      simp
  · unfold getBit setBit
    rw [getD_set_ne _ _ _ _ hbyte]

/-! ### Loop lemmas for the prefix-preserving construction -/

theorem pfxEncLoop_length (K1 K2 b : List Nat) :
    ∀ fuel reg enc, (pfxEncLoop K1 K2 b fuel reg enc).length = enc.length := by
  intro fuel
  induction fuel with
  | zero => intro reg enc; rfl
  | succ n ih =>
    intro reg enc
    show (pfxEncLoop K1 K2 b n _ _).length = _
    rw [ih, setBit_length]

theorem pfxDecLoop_length (K1 K2 c : List Nat) :
    ∀ fuel reg dec, (pfxDecLoop K1 K2 c fuel reg dec).length = dec.length := by
  intro fuel
  induction fuel with
  | zero => intro reg dec; rfl
  | succ n ih =>
    intro reg dec
    show (pfxDecLoop K1 K2 c n _ _).length = _
    rw [ih, setBit_length]

theorem pfxEncLoop_bytes (K1 K2 b : List Nat) :
    ∀ fuel reg enc, allBytes enc → allBytes (pfxEncLoop K1 K2 b fuel reg enc) := by
  intro fuel
  induction fuel with
  | zero => intro reg enc h; exact h
  | succ n ih =>
    intro reg enc h
    exact ih _ _ (setBit_bytes _ _ _ h)

theorem pfxDecLoop_bytes (K1 K2 c : List Nat) :
    ∀ fuel reg dec, allBytes dec → allBytes (pfxDecLoop K1 K2 c fuel reg dec) := by
  intro fuel
  induction fuel with
  | zero => intro reg dec h; exact h
  | succ n ih =>
    intro reg dec h
    exact ih _ _ (setBit_bytes _ _ _ h)

theorem pfxEncLoop_frame (K1 K2 b : List Nat) :
    ∀ fuel reg enc p, enc.length = 16 → fuel ≤ p → p < 128 →
      getBit (pfxEncLoop K1 K2 b fuel reg enc) p = getBit enc p := by
  intro fuel
  induction fuel with
  | zero => intro reg enc p _ _ _; rfl
  | succ n ih =>
    intro reg enc p hlen hfp hp
    show getBit (pfxEncLoop K1 K2 b n _ _) p = _
    rw [ih _ _ p (by rw [setBit_length, hlen]) (by omega) hp,
        getBit_setBit_ne _ _ _ _ hlen hp (by omega) (by omega)]

theorem pfxDecLoop_frame (K1 K2 c : List Nat) :
    ∀ fuel reg dec p, dec.length = 16 → fuel ≤ p → p < 128 →
      getBit (pfxDecLoop K1 K2 c fuel reg dec) p = getBit dec p := by
  intro fuel
  induction fuel with
  | zero => intro reg dec p _ _ _; rfl
  | succ n ih =>
    intro reg dec p hlen hfp hp
    show getBit (pfxDecLoop K1 K2 c n _ _) p = _
    rw [ih _ _ p (by rw [setBit_length, hlen]) (by omega) hp,
        getBit_setBit_ne _ _ _ _ hlen hp (by omega) (by omega)]

theorem xor_xor_cancel (c x : Nat) : c ^^^ (c ^^^ x) = x := by
  rw [← Nat.xor_assoc, Nat.xor_self, Nat.zero_xor]

theorem prfBit_lt (K1 K2 reg : List Nat) : prfBit K1 K2 reg < 2 :=
  Nat.lt_succ_of_le Nat.and_le_right

theorem xor_lt_2 {x y : Nat} (hx : x < 2) (hy : y < 2) : x ^^^ y < 2 := by
  have h : (2:Nat) = 2^1 := by norm_num
  rw [h] at hx hy ⊢
  exact Nat.xor_lt_two_pow hx hy

theorem pfxEncLoop_succ (K1 K2 b : List Nat) (n : Nat) (reg enc : List Nat) :
    pfxEncLoop K1 K2 b (n+1) reg enc =
      pfxEncLoop K1 K2 b n
        (setBit (shiftLeftOneBit reg) 0 (getBit b n))
        (setBit enc n (prfBit K1 K2 reg ^^^ getBit b n)) := rfl

theorem pfxDecLoop_succ (K1 K2 c : List Nat) (n : Nat) (reg dec : List Nat) :
    pfxDecLoop K1 K2 c (n+1) reg dec =
      pfxDecLoop K1 K2 c n
        (setBit (shiftLeftOneBit reg) 0 (prfBit K1 K2 reg ^^^ getBit c n))
        (setBit dec n (prfBit K1 K2 reg ^^^ getBit c n)) := rfl

theorem pfxDecLoop_pfxEncLoop (K1 K2 b : List Nat) :
    ∀ fuel reg enc dec, fuel ≤ 128 → enc.length = 16 → dec.length = 16 →
      ∀ p, p < 128 →
      getBit (pfxDecLoop K1 K2 (pfxEncLoop K1 K2 b fuel reg enc) fuel reg dec) p
        = if p < fuel then getBit b p else getBit dec p := by
  intro fuel
  induction fuel with
  | zero =>
    intro reg enc dec _ _ _ p _
    simp [pfxDecLoop]
  | succ n ih =>
    intro reg enc dec hf hel hdl p hp
    have hC : getBit (pfxEncLoop K1 K2 b (n+1) reg enc) n
        = prfBit K1 K2 reg ^^^ getBit b n := by
      rw [pfxEncLoop_succ,
          pfxEncLoop_frame K1 K2 b n _ _ n (by rw [setBit_length, hel]) (le_refl n) (by omega)]
      exact getBit_setBit_same _ _ _ hel (by omega)
        (xor_lt_2 (prfBit_lt K1 K2 reg) (getBit_lt b n))
    rw [pfxDecLoop_succ, hC]
    simp only [xor_xor_cancel]
    rw [show pfxEncLoop K1 K2 b (n+1) reg enc =
          pfxEncLoop K1 K2 b n
            (setBit (shiftLeftOneBit reg) 0 (getBit b n))
            (setBit enc n (prfBit K1 K2 reg ^^^ getBit b n)) from rfl]
    rw [ih _ _ _ (by omega) (by rw [setBit_length, hel]) (by rw [setBit_length, hdl]) p hp]
    by_cases h1 : p < n
    · rw [if_pos h1, if_pos (by omega)]
    · by_cases h2 : p = n
      · subst h2
        rw [if_neg h1, if_pos (by omega)]
        exact getBit_setBit_same _ _ _ hdl (by omega) (getBit_lt b p)
      · rw [if_neg h1, if_neg (by omega)]
        exact getBit_setBit_ne _ _ _ _ hdl hp (by omega) (by omega)

theorem pfxEncLoop_agree (K1 K2 : List Nat) :
    ∀ m fuel b1 b2 reg enc, m ≤ fuel → fuel ≤ 128 → enc.length = 16 →
      (∀ p, fuel - m ≤ p → p < fuel → getBit b1 p = getBit b2 p) →
      ∀ p, fuel - m ≤ p → p < 128 →
      getBit (pfxEncLoop K1 K2 b1 fuel reg enc) p
        = getBit (pfxEncLoop K1 K2 b2 fuel reg enc) p := by
  intro m
  induction m with
  | zero =>
    intro fuel b1 b2 reg enc _ hf hel _ p hfp hp
    rw [pfxEncLoop_frame K1 K2 b1 fuel reg enc p hel (by omega) hp,
        pfxEncLoop_frame K1 K2 b2 fuel reg enc p hel (by omega) hp]
  | succ m ih =>
    intro fuel b1 b2 reg enc hm hf hel hag p hfp hp
    obtain ⟨f, rfl⟩ : ∃ f, fuel = f + 1 := ⟨fuel - 1, by omega⟩
    have hob : getBit b1 f = getBit b2 f := hag f (by omega) (by omega)
    rw [pfxEncLoop_succ, pfxEncLoop_succ, hob]
    exact ih f b1 b2 _ _ (by omega) (by omega) (by rw [setBit_length, hel])
      (fun q hq1 hq2 => hag q (by omega) (by omega)) p (by omega) hp

theorem take_set_of_le (l : List Nat) (i v n : Nat) (h : n ≤ i) :
    (l.set i v).take n = l.take n := by
  apply List.ext_getElem
  · simp
  · intro j hj1 hj2
    simp only [List.getElem_take]
    rw [List.getElem_set_ne (by simp at hj1; omega)]

theorem setBit_take12 (l : List Nat) (pos v : Nat) (hpos : pos < 32) :
    (setBit l pos v).take 12 = l.take 12 := by
  unfold setBit
  apply take_set_of_le
  omega

theorem pfxEncLoop_take12 (K1 K2 b : List Nat) :
    ∀ fuel reg enc, fuel ≤ 32 →
      (pfxEncLoop K1 K2 b fuel reg enc).take 12 = enc.take 12 := by
  intro fuel
  induction fuel with
  | zero => intro reg enc _; rfl
  | succ n ih =>
    intro reg enc hf
    rw [pfxEncLoop_succ, ih _ _ (by omega), setBit_take12 _ _ _ (by omega)]

theorem pfxDecLoop_take12 (K1 K2 c : List Nat) :
    ∀ fuel reg dec, fuel ≤ 32 →
      (pfxDecLoop K1 K2 c fuel reg dec).take 12 = dec.take 12 := by
  intro fuel
  induction fuel with
  | zero => intro reg dec _; rfl
  | succ n ih =>
    intro reg dec hf
    rw [pfxDecLoop_succ, ih _ _ (by omega), setBit_take12 _ _ _ (by omega)]

theorem pfxEncLoopInstr_count (K1 K2 b : List Nat) :
    ∀ fuel reg enc, (pfxEncLoopInstr K1 K2 b fuel reg enc).2 = 2 * fuel := by
  intro fuel
  induction fuel with
  | zero => intro reg enc; rfl
  | succ n ih =>
    intro reg enc
    show (pfxEncLoopInstr K1 K2 b n _ _).2 + 2 = 2 * (n+1)
    rw [ih]
    ring

theorem pfxDecLoopInstr_count (K1 K2 c : List Nat) :
    ∀ fuel reg dec, (pfxDecLoopInstr K1 K2 c fuel reg dec).2 = 2 * fuel := by
  intro fuel
  induction fuel with
  | zero => intro reg dec; rfl
  | succ n ih =>
    intro reg dec
    show (pfxDecLoopInstr K1 K2 c n _ _).2 + 2 = 2 * (n+1)
    rw [ih]
    ring

/-! ### Reassembling bytes from bits -/

theorem getBit_byte (l : List Nat) (j i : Nat) (hj : j < 16) (hi : i < 8) :
    getBit l (8*(15-j)+i) = ((l.getD j 0).testBit i).toNat := by
  unfold getBit
  have hdiv : (8*(15-j)+i) / 8 = 15 - j := by omega
  have hmod : (8*(15-j)+i) % 8 = i := by omega
  have hidx : 15 - (15 - j) = j := by omega
  rw [hdiv, hmod, hidx, bitVal]

theorem byte_eq_of_bits (x y : Nat) (hx : x < 256) (hy : y < 256)
    (h : ∀ i, i < 8 → x.testBit i = y.testBit i) : x = y := by
  apply Nat.eq_of_testBit_eq
  intro i
  by_cases hi : i < 8
  · exact h i hi
  · have h256 : (256:Nat) = 2^8 := by norm_num
    rw [h256] at hx hy
    have hx8 : x < 2^i :=
      Nat.lt_of_lt_of_le hx (Nat.pow_le_pow_right (by norm_num) (by omega))
    have hy8 : y < 2^i :=
      Nat.lt_of_lt_of_le hy (Nat.pow_le_pow_right (by norm_num) (by omega))
    rw [Nat.testBit_lt_two_pow hx8, Nat.testBit_lt_two_pow hy8]

theorem list_eq_of_getD (x y : List Nat) (hx : x.length = 16) (hy : y.length = 16)
    (h : ∀ j, j < 16 → x.getD j 0 = y.getD j 0) : x = y := by
  apply List.ext_getElem (by omega)
  intro j hj1 hj2
  have := h j (by omega)
  rwa [List.getD_eq_getElem _ _ hj1, List.getD_eq_getElem _ _ hj2] at this

theorem blocks_eq_of_bits (x y : List Nat) (hx : x.length = 16) (hy : y.length = 16)
    (hbx : allBytes x) (hby : allBytes y)
    (h : ∀ p, p < 128 → getBit x p = getBit y p) : x = y := by
  apply list_eq_of_getD x y hx hy
  intro j hj
  apply byte_eq_of_bits _ _ (getD_lt_256 x hbx j) (getD_lt_256 y hby j)
  intro i hi
  have hb := h (8*(15-j)+i) (by omega)
  rw [getBit_byte x j i hj hi, getBit_byte y j i hj hi] at hb
  cases hx' : (x.getD j 0).testBit i <;> cases hy' : (y.getD j 0).testBit i <;>
    rw [hx', hy'] at hb <;> simp at hb ⊢

/-! ### Unfolded forms of the top-level operations under valid inputs -/

theorem padTweak_bytes (t : List Nat) (ht : allBytes t) : allBytes (padTweak t) := by
  intro v hv
  simp only [padTweak, List.mem_cons] at hv
  rcases hv with rfl|rfl|rfl|rfl|rfl|rfl|rfl|rfl|rfl|rfl|rfl|rfl|rfl|rfl|rfl|rfl|hv <;>
    first
    | simp at hv
    | exact getD_lt_256 t ht _
    | norm_num

theorem kiasuKf_ok (key tweak : List Nat) (hk : key.length = 16) (hkb : allBytes key)
    (htb : allBytes tweak) :
    ∀ r, r ≤ 10 → (kiasuKf key tweak r).length = 16 ∧ allBytes (kiasuKf key tweak r) := by
  intro r hr
  have hak := aesKf_ok key hk hkb r hr
  constructor
  · unfold kiasuKf
    rw [zipXor_length, hak.1]
    simp [padTweak]
  · exact zipXor_bytes _ _ hak.2 (padTweak_bytes _ htb)

theorem kiasuEncrypt_eq (key tweak block : List Nat) (hk : key.length = 16)
    (ht : tweak.length = 8) (hb : block.length = 16) :
    kiasuEncrypt key tweak block = .ok (cipherEncrypt (kiasuKf key tweak) block) := by
  unfold kiasuEncrypt
  rw [if_neg (by simp [hk]), if_neg (by simp [ht]), if_neg (by simp [hb])]

theorem kiasuDecrypt_eq (key tweak block : List Nat) (hk : key.length = 16)
    (ht : tweak.length = 8) (hb : block.length = 16) :
    kiasuDecrypt key tweak block = .ok (cipherDecrypt (kiasuKf key tweak) block) := by
  unfold kiasuDecrypt
  rw [if_neg (by simp [hk]), if_neg (by simp [ht]), if_neg (by simp [hb])]

theorem encryptBlockXts_eq (key tweak pt : List Nat) (hk : key.length = 32)
    (ht : tweak.length = 16) (hp : pt.length = 16) :
    encryptBlockXts key tweak pt =
      .ok (zipXor (aesEncryptBlock (key.take 16)
            (zipXor pt (aesEncryptBlock (key.drop 16) tweak)))
          (aesEncryptBlock (key.drop 16) tweak)) := by
  unfold encryptBlockXts aesEncryptBlock
  rw [if_neg (by simp [hk]), if_neg (by simp [ht]), if_neg (by simp [hp])]

theorem decryptBlockXts_eq (key tweak ct : List Nat) (hk : key.length = 32)
    (ht : tweak.length = 16) (hc : ct.length = 16) :
    decryptBlockXts key tweak ct =
      .ok (zipXor (aesDecryptBlock (key.take 16)
            (zipXor ct (aesEncryptBlock (key.drop 16) tweak)))
          (aesEncryptBlock (key.drop 16) tweak)) := by
  unfold decryptBlockXts aesEncryptBlock aesDecryptBlock
  rw [if_neg (by simp [hk]), if_neg (by simp [ht]), if_neg (by simp [hc])]

theorem pfxEncrypt_eq (key b : List Nat) (hk : key.length = 32)
    (hne : key.take 16 ≠ key.drop 16) :
    pfxEncrypt key b = .ok (pfxEncLoop (key.take 16) (key.drop 16) b
      (if isIPv4 b then 32 else 128)
      (if isIPv4 b then padPrefix96 else padPrefix0)
      (if isIPv4 b then b.take 12 ++ [0,0,0,0] else List.replicate 16 0)) := by
  simp only [pfxEncrypt, hk]
  rw [if_neg (by simp), if_neg hne]

theorem pfxDecrypt_eq (key c : List Nat) (hk : key.length = 32)
    (hne : key.take 16 ≠ key.drop 16) :
    pfxDecrypt key c = .ok (pfxDecLoop (key.take 16) (key.drop 16) c
      (if isIPv4 c then 32 else 128)
      (if isIPv4 c then padPrefix96 else padPrefix0)
      (if isIPv4 c then c.take 12 ++ [0,0,0,0] else List.replicate 16 0)) := by
  simp only [pfxDecrypt, hk]
  rw [if_neg (by simp), if_neg hne]

theorem pfxEncryptAesCalls_eq (key b : List Nat) (hk : key.length = 32)
    (hne : key.take 16 ≠ key.drop 16) :
    pfxEncryptAesCalls key b = .ok (2 * (if isIPv4 b then 32 else 128)) := by
  simp only [pfxEncryptAesCalls, hk]
  rw [if_neg (by simp), if_neg hne, pfxEncLoopInstr_count]

theorem pfxDecryptAesCalls_eq (key c : List Nat) (hk : key.length = 32)
    (hne : key.take 16 ≠ key.drop 16) :
    pfxDecryptAesCalls key c = .ok (2 * (if isIPv4 c then 32 else 128)) := by
  simp only [pfxDecryptAesCalls, hk]
  rw [if_neg (by simp), if_neg hne, pfxDecLoopInstr_count]

/-! ### Facts about the IPv4-mapped classification and initial buffers -/

theorem isIPv4_take12 (b : List Nat) (hb : b.length = 16) (h4 : isIPv4 b = true) :
    b.take 12 = [0,0,0,0,0,0,0,0,0,0,255,255] := by
  obtain ⟨a0,a1,a2,a3,a4,a5,a6,a7,a8,a9,a10,a11,a12,a13,a14,a15, rfl⟩ := list16 b hb
  simp only [isIPv4, List.take, List.all_cons, List.all_nil, List.getD, Bool.and_eq_true,
    beq_iff_eq, List.get?_eq_getElem?, List.getElem?_cons_zero, List.getElem?_cons_succ,
    Option.getD_some, and_true] at h4
  rcases h4 with ⟨⟨⟨e0,e1,e2,e3,e4,e5,e6,e7,e8,e9⟩, e10⟩, e11⟩
  subst_vars
  rfl

theorem isIPv4_congr (x y : List Nat) (hx : x.length = 16) (hy : y.length = 16)
    (h : ∀ j, j < 12 → x.getD j 0 = y.getD j 0) : isIPv4 x = isIPv4 y := by
  obtain ⟨a0,a1,a2,a3,a4,a5,a6,a7,a8,a9,a10,a11,a12,a13,a14,a15, rfl⟩ := list16 x hx
  obtain ⟨c0,c1,c2,c3,c4,c5,c6,c7,c8,c9,c10,c11,c12,c13,c14,c15, rfl⟩ := list16 y hy
  have h0 := h 0 (by norm_num); have h1 := h 1 (by norm_num)
  have h2 := h 2 (by norm_num); have h3 := h 3 (by norm_num)
  have h4 := h 4 (by norm_num); have h5 := h 5 (by norm_num)
  have h6 := h 6 (by norm_num); have h7 := h 7 (by norm_num)
  have h8 := h 8 (by norm_num); have h9 := h 9 (by norm_num)
  have h10 := h 10 (by norm_num); have h11 := h 11 (by norm_num)
  simp only [List.getD, List.get?_eq_getElem?, List.getElem?_cons_zero,
    List.getElem?_cons_succ, Option.getD_some] at h0 h1 h2 h3 h4 h5 h6 h7 h8 h9 h10 h11
  subst h0 h1 h2 h3 h4 h5 h6 h7 h8 h9 h10 h11
  rfl

theorem getD_take12_append (b : List Nat) (hb : b.length = 16) (j : Nat) (hj : j < 12) :
    (b.take 12 ++ [0,0,0,0]).getD j 0 = b.getD j 0 := by
  obtain ⟨a0,a1,a2,a3,a4,a5,a6,a7,a8,a9,a10,a11,a12,a13,a14,a15, rfl⟩ := list16 b hb
  interval_cases j <;> rfl

theorem getBit_take12_append (b : List Nat) (hb : b.length = 16) (p : Nat)
    (hp1 : 32 ≤ p) (hp2 : p < 128) :
    getBit (b.take 12 ++ [0,0,0,0]) p = getBit b p := by
  unfold getBit
  rw [getD_take12_append b hb _ (by omega)]

theorem take12_append_length (b : List Nat) (hb : b.length = 16) :
    (b.take 12 ++ [0,0,0,0]).length = 16 := by
  simp [hb]

theorem take12_append_bytes (b : List Nat) (hbb : allBytes b) :
    allBytes (b.take 12 ++ [0,0,0,0]) := by
  rw [allBytes_append]
  constructor
  · intro v hv
    exact hbb v (List.mem_of_mem_take hv)
  · intro v hv
    simp only [List.mem_cons] at hv
    rcases hv with rfl|rfl|rfl|rfl|hv
    · norm_num
    · norm_num
    · norm_num
    · norm_num
    · simp at hv

theorem replicate16_bytes : allBytes (List.replicate 16 0) := by
  intro v hv
  rw [List.eq_of_mem_replicate hv]
  norm_num

theorem take12_take12_append (b : List Nat) (hb : b.length = 16) :
    (b.take 12 ++ [0,0,0,0]).take 12 = b.take 12 := by
  apply List.ext_getElem (by simp [hb])
  intro j hj1 hj2
  have hj : j < 12 := by simp [hb] at hj1; omega
  rw [List.getElem_take, List.getElem_append_left (by simp [hb]; omega)]

/-! ### Claim theorems -/

/-- C3: for every 32-byte key whose first 16 bytes equal its last 16 bytes
byte-for-byte, both the prefix-preserving `encrypt` and `decrypt` fail with
the key-validation error instead of producing output. -/
theorem c3_equal_halves_rejected (key block : List Nat) (hk : key.length = 32)
    (heq : key.take 16 = key.drop 16) :
    pfxEncrypt key block = .error "The two halves of the key must be different" ∧
    pfxDecrypt key block = .error "The two halves of the key must be different" := by
  constructor
  · simp only [pfxEncrypt, hk]
    rw [if_neg (by simp), if_pos heq]
  · simp only [pfxDecrypt, hk]
    rw [if_neg (by simp), if_pos heq]

/-- Witness for C3 at the all-zero 32-byte key. -/
theorem c3_equal_halves_rejected_witness :
    (List.replicate 32 0).length = 32 ∧
    (List.replicate 32 0).take 16 = (List.replicate 32 0).drop 16 ∧
    (pfxEncrypt (List.replicate 32 0) (List.replicate 16 0)
       = .error "The two halves of the key must be different" ∧
     pfxDecrypt (List.replicate 32 0) (List.replicate 16 0)
       = .error "The two halves of the key must be different") :=
  ⟨by decide, by decide,
   c3_equal_halves_rejected (List.replicate 32 0) (List.replicate 16 0)
     (by decide) (by decide)⟩

/-- C7: for every 8-byte tweak, the padded 16-byte tweak satisfies
`output[4k] = tweak[2k]`, `output[4k+1] = tweak[2k+1]`, and
`output[4k+2] = output[4k+3] = 0` for every `k < 4`. -/
theorem c7_padTweak_layout (t : List Nat) (ht : t.length = 8) :
    ∀ k, k < 4 → (padTweak t).getD (4*k) 0 = t.getD (2*k) 0 ∧
      (padTweak t).getD (4*k+1) 0 = t.getD (2*k+1) 0 ∧
      (padTweak t).getD (4*k+2) 0 = 0 ∧
      (padTweak t).getD (4*k+3) 0 = 0 := by
  intro k hk
  interval_cases k <;> exact ⟨rfl, rfl, rfl, rfl⟩

/-- Witness for C7 at the tweak `[1,2,3,4,5,6,7,8]` and `k = 2`. -/
theorem c7_padTweak_layout_witness :
    (padTweak [1,2,3,4,5,6,7,8]).getD 8 0 = [1,2,3,4,5,6,7,8].getD 4 0 ∧
    (padTweak [1,2,3,4,5,6,7,8]).getD 9 0 = [1,2,3,4,5,6,7,8].getD 5 0 ∧
    (padTweak [1,2,3,4,5,6,7,8]).getD 10 0 = 0 ∧
    (padTweak [1,2,3,4,5,6,7,8]).getD 11 0 = 0 :=
  c7_padTweak_layout [1,2,3,4,5,6,7,8] (by decide) 2 (by decide)

/-- C10: KIASU-BC encryption with the all-zero 8-byte tweak coincides with
plain deterministic AES-128 encryption: the padded zero tweak contributes
nothing at any round boundary. -/
theorem c10_zero_tweak_is_aes (key block : List Nat) (hk : key.length = 16)
    (hb : block.length = 16) :
    kiasuEncrypt key (List.replicate 8 0) block = .ok (aesEncryptBlock key block) := by
  rw [kiasuEncrypt_eq key (List.replicate 8 0) block hk (by decide) hb]
  have hkf : kiasuKf key (List.replicate 8 0) = roundKey (expandKey key) := by
    funext r
    unfold kiasuKf
    rw [show padTweak (List.replicate 8 0) = List.replicate 16 0 from rfl]
    apply zipXor_zeros
    rw [roundKey, List.length_take]
    exact Nat.min_le_left _ _
  rw [hkf]
  rfl

/-- Witness for C10 at a concrete key and block. -/
theorem c10_zero_tweak_is_aes_witness :
    kiasuEncrypt [1,2,3,4,5,6,7,8,9,10,11,12,13,14,15,16] (List.replicate 8 0)
        [0,0,0,0,0,0,0,0,0,0,255,255,192,168,1,1]
      = .ok (aesEncryptBlock [1,2,3,4,5,6,7,8,9,10,11,12,13,14,15,16]
          [0,0,0,0,0,0,0,0,0,0,255,255,192,168,1,1]) :=
  c10_zero_tweak_is_aes _ _ (by decide) (by decide)

/-- C6: the dual-key whitening construction is exactly the XEX composition
`AES-encrypt(K1, block XOR mask) XOR mask` with
`mask = AES-encrypt(K2, tweak)` a single full AES encryption, and
decryption is `AES-decrypt(K1, ciphertext XOR mask) XOR mask` with the same
mask. -/
theorem c6_xts_whitening (key tweak pt ct : List Nat) (hk : key.length = 32)
    (ht : tweak.length = 16) (hp : pt.length = 16) (hc : ct.length = 16) :
    encryptBlockXts key tweak pt =
      .ok (zipXor (aesEncryptBlock (key.take 16)
            (zipXor pt (aesEncryptBlock (key.drop 16) tweak)))
          (aesEncryptBlock (key.drop 16) tweak)) ∧
    decryptBlockXts key tweak ct =
      .ok (zipXor (aesDecryptBlock (key.take 16)
            (zipXor ct (aesEncryptBlock (key.drop 16) tweak)))
          (aesEncryptBlock (key.drop 16) tweak)) :=
  ⟨encryptBlockXts_eq key tweak pt hk ht hp,
   decryptBlockXts_eq key tweak ct hk ht hc⟩

/-- Witness for C6 at concrete inputs. -/
theorem c6_xts_whitening_witness :
    encryptBlockXts (List.replicate 32 7) (List.replicate 16 3) (List.replicate 16 5) =
      .ok (zipXor (aesEncryptBlock ((List.replicate 32 7).take 16)
            (zipXor (List.replicate 16 5)
              (aesEncryptBlock ((List.replicate 32 7).drop 16) (List.replicate 16 3))))
          (aesEncryptBlock ((List.replicate 32 7).drop 16) (List.replicate 16 3))) ∧
    decryptBlockXts (List.replicate 32 7) (List.replicate 16 3) (List.replicate 16 9) =
      .ok (zipXor (aesDecryptBlock ((List.replicate 32 7).take 16)
            (zipXor (List.replicate 16 9)
              (aesEncryptBlock ((List.replicate 32 7).drop 16) (List.replicate 16 3))))
          (aesEncryptBlock ((List.replicate 32 7).drop 16) (List.replicate 16 3))) :=
  c6_xts_whitening (List.replicate 32 7) (List.replicate 16 3) (List.replicate 16 5)
    (List.replicate 16 9) (by decide) (by decide) (by decide) (by decide)

/-- C9: for every valid key and every IPv4-mapped input block, the
prefix-preserving encryption output keeps bytes 0-11 identical to the
input's bytes 0-11 (processing starts at bit position 96, so only the
low-order 32 bits are transformed). -/
theorem c9_ipv4_frame (key b : List Nat) (hk : key.length = 32)
    (hne : key.take 16 ≠ key.drop 16) (hb : b.length = 16)
    (h4 : isIPv4 b = true) :
    (pfxEncrypt key b).map (List.take 12) = .ok (b.take 12) := by
  rw [pfxEncrypt_eq key b hk hne, h4]
  simp only [if_pos, Except.map]
  rw [pfxEncLoop_take12 _ _ _ 32 _ _ (by omega), take12_take12_append b hb]

/-- Witness for C9 at a concrete valid key and the block of `0.0.0.0`. -/
theorem c9_ipv4_frame_witness :
    (pfxEncrypt (List.replicate 31 0 ++ [1]) [0,0,0,0,0,0,0,0,0,0,255,255,0,0,0,0]).map
        (List.take 12)
      = .ok ([0,0,0,0,0,0,0,0,0,0,255,255,0,0,0,0].take 12) :=
  c9_ipv4_frame (List.replicate 31 0 ++ [1]) _ (by decide) (by decide) (by decide) (by decide)

/-- C8 counterexample: one prefix-preserving encrypt call on an IPv6 block
performs 256 AES-primitive block encryptions (two per bit position over 128
positions), exceeding the claimed bound of 128. -/
theorem c8_counterexample :
    pfxEncryptAesCalls (List.replicate 31 0 ++ [1]) (List.replicate 16 0) = .ok 256 ∧
    ¬ (256 ≤ 128) := by
  constructor
  · rw [pfxEncryptAesCalls_eq (List.replicate 31 0 ++ [1]) (List.replicate 16 0)
      (by decide) (by decide)]
    decide
  · decide

/-- C8 (amended): every prefix-preserving encrypt or decrypt call performs at
most 256 AES-primitive block encryptions (exactly two per processed bit
position: 64 for IPv4-mapped blocks, 256 for IPv6 blocks). -/
theorem c8_aes_call_bound (key b : List Nat) (hk : key.length = 32)
    (hne : key.take 16 ≠ key.drop 16) :
    (∀ n, pfxEncryptAesCalls key b = .ok n → n ≤ 256) ∧
    (∀ n, pfxDecryptAesCalls key b = .ok n → n ≤ 256) := by
  constructor
  · intro n hn
    rw [pfxEncryptAesCalls_eq key b hk hne] at hn
    have h : 2 * (if isIPv4 b then 32 else 128) = n := by
      injection hn
    by_cases h4 : isIPv4 b <;> simp [h4] at h <;> omega
  · intro n hn
    rw [pfxDecryptAesCalls_eq key b hk hne] at hn
    have h : 2 * (if isIPv4 b then 32 else 128) = n := by
      injection hn
    by_cases h4 : isIPv4 b <;> simp [h4] at h <;> omega

/-- Witness for the amended C8 at a concrete valid key and block. -/
theorem c8_aes_call_bound_witness :
    (∀ n, pfxEncryptAesCalls (List.replicate 31 0 ++ [1]) (List.replicate 16 0)
      = .ok n → n ≤ 256) ∧
    (∀ n, pfxDecryptAesCalls (List.replicate 31 0 ++ [1]) (List.replicate 16 0)
      = .ok n → n ≤ 256) :=
  c8_aes_call_bound (List.replicate 31 0 ++ [1]) (List.replicate 16 0)
    (by decide) (by decide)

set_option maxRecDepth 1000000 in
/-- C4: KIASU-BC encryption of the canonical block of `0.0.0.0` under key
`0123456789abcdeffedcba9876543210` with tweak `08e0c289bff23b7c` yields the
ciphertext `b349aadfe3bcef56221c384c7c217b16`, and the 24-byte wire output of
the non-deterministic scheme is the tweak followed by that ciphertext. -/
theorem c4_kiasu_vector :
    kiasuEncrypt [0x01,0x23,0x45,0x67,0x89,0xab,0xcd,0xef,0xfe,0xdc,0xba,0x98,0x76,0x54,0x32,0x10]
        [0x08,0xe0,0xc2,0x89,0xbf,0xf2,0x3b,0x7c]
        [0,0,0,0,0,0,0,0,0,0,0xff,0xff,0,0,0,0]
      = .ok [0xb3,0x49,0xaa,0xdf,0xe3,0xbc,0xef,0x56,0x22,0x1c,0x38,0x4c,0x7c,0x21,0x7b,0x16] ∧
    ndEncrypt [0x01,0x23,0x45,0x67,0x89,0xab,0xcd,0xef,0xfe,0xdc,0xba,0x98,0x76,0x54,0x32,0x10]
        [0x08,0xe0,0xc2,0x89,0xbf,0xf2,0x3b,0x7c]
        [0,0,0,0,0,0,0,0,0,0,0xff,0xff,0,0,0,0]
      = .ok [0x08,0xe0,0xc2,0x89,0xbf,0xf2,0x3b,0x7c,
             0xb3,0x49,0xaa,0xdf,0xe3,0xbc,0xef,0x56,0x22,0x1c,0x38,0x4c,0x7c,0x21,0x7b,0x16] := by
  constructor <;> decide

set_option maxRecDepth 1000000 in
set_option maxHeartbeats 4000000 in
/-- C5: under the 32-byte key `2b7e...789a` (differing halves), the
prefix-preserving encryptions of `10.0.0.47`, `10.0.0.129` and `10.0.0.234`
produce the listed outputs, which agree on their top 120 bits (the
IPv4-mapped prefix plus the top 24 address bits) and carry the address
prefix `19.214.210.` in bytes 12-14. -/
theorem c5_pfx_vector :
    pfxEncrypt [0x2b,0x7e,0x15,0x16,0x28,0xae,0xd2,0xa6,0xab,0xf7,0x15,0x88,0x09,0xcf,0x4f,0x3c,
                0xa9,0xf5,0xba,0x40,0xdb,0x21,0x4c,0x37,0x98,0xf2,0xe1,0xc2,0x34,0x56,0x78,0x9a]
        [0,0,0,0,0,0,0,0,0,0,255,255,10,0,0,47]
      = .ok [0,0,0,0,0,0,0,0,0,0,255,255,19,214,210,244] ∧
    pfxEncrypt [0x2b,0x7e,0x15,0x16,0x28,0xae,0xd2,0xa6,0xab,0xf7,0x15,0x88,0x09,0xcf,0x4f,0x3c,
                0xa9,0xf5,0xba,0x40,0xdb,0x21,0x4c,0x37,0x98,0xf2,0xe1,0xc2,0x34,0x56,0x78,0x9a]
        [0,0,0,0,0,0,0,0,0,0,255,255,10,0,0,129]
      = .ok [0,0,0,0,0,0,0,0,0,0,255,255,19,214,210,80] ∧
    pfxEncrypt [0x2b,0x7e,0x15,0x16,0x28,0xae,0xd2,0xa6,0xab,0xf7,0x15,0x88,0x09,0xcf,0x4f,0x3c,
                0xa9,0xf5,0xba,0x40,0xdb,0x21,0x4c,0x37,0x98,0xf2,0xe1,0xc2,0x34,0x56,0x78,0x9a]
        [0,0,0,0,0,0,0,0,0,0,255,255,10,0,0,234]
      = .ok [0,0,0,0,0,0,0,0,0,0,255,255,19,214,210,30] ∧
    agreeTop [0,0,0,0,0,0,0,0,0,0,255,255,19,214,210,244]
      [0,0,0,0,0,0,0,0,0,0,255,255,19,214,210,80] 120 = true ∧
    agreeTop [0,0,0,0,0,0,0,0,0,0,255,255,19,214,210,244]
      [0,0,0,0,0,0,0,0,0,0,255,255,19,214,210,30] 120 = true ∧
    List.take 3 (List.drop 12 ([0,0,0,0,0,0,0,0,0,0,255,255,19,214,210,244] : List Nat)) = [19,214,210] ∧
    List.take 3 (List.drop 12 ([0,0,0,0,0,0,0,0,0,0,255,255,19,214,210,80] : List Nat)) = [19,214,210] ∧
    List.take 3 (List.drop 12 ([0,0,0,0,0,0,0,0,0,0,255,255,19,214,210,30] : List Nat)) = [19,214,210] := by
  refine ⟨?_, ?_, ?_, ?_, ?_, ?_, ?_, ?_⟩ <;> decide

theorem toNat_inj {a b : Bool} (h : a.toNat = b.toNat) : a = b := by
  cases a <;> cases b <;> simp_all

set_option maxHeartbeats 1000000 in
/-- C2: for every valid 32-byte key with differing halves and every pair of
blocks agreeing on their top `n` bits, with `n` at least each block's
starting bit count (96 for IPv4-mapped blocks, 0 for IPv6) and at most 128,
the prefix-preserving encryptions agree on their top `n` bits. -/
theorem c2_prefix_preservation (key b1 b2 : List Nat) (n : Nat)
    (hk : key.length = 32) (hne : key.take 16 ≠ key.drop 16)
    (hb1 : b1.length = 16) (hb2 : b2.length = 16)
    (hby1 : allBytes b1) (hby2 : allBytes b2)
    (hn : n ≤ 128)
    (hs1 : (if isIPv4 b1 then 96 else 0) ≤ n)
    (hs2 : (if isIPv4 b2 then 96 else 0) ≤ n)
    (hag : agreeTop b1 b2 n = true) :
    agreeTopE (pfxEncrypt key b1) (pfxEncrypt key b2) n = true := by
  have hagP : ∀ p, 128 - n ≤ p → p < 128 → getBit b1 p = getBit b2 p := by
    intro p h1 h2
    have hi : 127 - p < n := by omega
    have h := List.all_eq_true.mp hag (127 - p) (List.mem_range.mpr hi)
    simp only [beq_iff_eq] at h
    have hp127 : 127 - (127 - p) = p := by omega
    rwa [hp127] at h
  rw [pfxEncrypt_eq key b1 hk hne, pfxEncrypt_eq key b2 hk hne]
  show agreeTop _ _ n = true
  apply List.all_eq_true.mpr
  intro i hi
  rw [List.mem_range] at hi
  simp only [beq_iff_eq]
  have hp1 : 128 - n ≤ 127 - i := by omega
  have hp2 : 127 - i < 128 := by omega
  by_cases h1 : isIPv4 b1 <;> by_cases h2 : isIPv4 b2
  · -- both IPv4-mapped
    have hn96 : 96 ≤ n := by rw [h1] at hs1; simpa using hs1
    have he12 : b2.take 12 = b1.take 12 := by
      rw [isIPv4_take12 b1 hb1 h1, isIPv4_take12 b2 hb2 h2]
    simp only [h1, h2, if_true]
    rw [he12]
    by_cases hp32 : 127 - i < 32
    · exact pfxEncLoop_agree (key.take 16) (key.drop 16) (n - 96) 32 b1 b2 _ _
        (by omega) (by omega) (take12_append_length b1 hb1)
        (fun q hq1 hq2 => hagP q (by omega) (by omega)) _ (by omega) hp2
    · rw [pfxEncLoop_frame _ _ b1 32 _ _ _ (take12_append_length b1 hb1) (by omega) hp2,
          pfxEncLoop_frame _ _ b2 32 _ _ _ (take12_append_length b1 hb1) (by omega) hp2]
  · -- b1 IPv4-mapped, b2 IPv6: impossible since they share the top 96 bits
    have hn96 : 96 ≤ n := by rw [h1] at hs1; simpa using hs1
    have hbytes : ∀ j, j < 12 → b1.getD j 0 = b2.getD j 0 := by
      intro j hj
      apply byte_eq_of_bits _ _ (getD_lt_256 b1 hby1 j) (getD_lt_256 b2 hby2 j)
      intro l hl
      have h := hagP (8*(15-j)+l) (by omega) (by omega)
      rw [getBit_byte b1 j l (by omega) hl, getBit_byte b2 j l (by omega) hl] at h
      exact toNat_inj h
    have hcongr := isIPv4_congr b1 b2 hb1 hb2 hbytes
    rw [h1] at hcongr
    exact absurd hcongr.symm h2
  · -- b2 IPv4-mapped, b1 IPv6: impossible symmetrically
    have hn96 : 96 ≤ n := by rw [h2] at hs2; simpa using hs2
    have hbytes : ∀ j, j < 12 → b1.getD j 0 = b2.getD j 0 := by
      intro j hj
      apply byte_eq_of_bits _ _ (getD_lt_256 b1 hby1 j) (getD_lt_256 b2 hby2 j)
      intro l hl
      have h := hagP (8*(15-j)+l) (by omega) (by omega)
      rw [getBit_byte b1 j l (by omega) hl, getBit_byte b2 j l (by omega) hl] at h
      exact toNat_inj h
    have hcongr := isIPv4_congr b1 b2 hb1 hb2 hbytes
    rw [h2] at hcongr
    exact absurd hcongr h1
  · -- both IPv6
    simp only [Bool.not_eq_true] at h1 h2
    simp only [h1, h2, Bool.false_eq_true, if_false]
    exact pfxEncLoop_agree (key.take 16) (key.drop 16) n 128 b1 b2 _ _
      hn (le_refl 128) (by simp)
      (fun q hq1 hq2 => hagP q (by omega) (by omega)) _ (by omega) hp2

/-- Witness for C2 at the concrete key of the design document's
prefix-preserving scenario and the blocks of `10.0.0.47` and `10.0.0.129`,
which agree on their top 120 bits. -/
theorem c2_prefix_preservation_witness :
    agreeTopE
      (pfxEncrypt [0x2b,0x7e,0x15,0x16,0x28,0xae,0xd2,0xa6,0xab,0xf7,0x15,0x88,0x09,0xcf,0x4f,0x3c,
                   0xa9,0xf5,0xba,0x40,0xdb,0x21,0x4c,0x37,0x98,0xf2,0xe1,0xc2,0x34,0x56,0x78,0x9a]
        [0,0,0,0,0,0,0,0,0,0,255,255,10,0,0,47])
      (pfxEncrypt [0x2b,0x7e,0x15,0x16,0x28,0xae,0xd2,0xa6,0xab,0xf7,0x15,0x88,0x09,0xcf,0x4f,0x3c,
                   0xa9,0xf5,0xba,0x40,0xdb,0x21,0x4c,0x37,0x98,0xf2,0xe1,0xc2,0x34,0x56,0x78,0x9a]
        [0,0,0,0,0,0,0,0,0,0,255,255,10,0,0,129])
      120 = true :=
  c2_prefix_preservation _ _ _ 120 (by decide) (by decide) (by decide) (by decide)
    (by decide) (by decide) (by decide) (by decide) (by decide) (by decide)

set_option maxHeartbeats 1000000 in
/-- C1 (amended): decrypting the encryption returns the original block for
the deterministic AES, single-key tweakable (KIASU-BC) and dual-key
whitening (XTS) constructions on all valid inputs; for the prefix-preserving
construction it holds whenever the ciphertext's IPv4-mapped classification
agrees with the plaintext's (always the case for IPv4-mapped inputs). -/
theorem c1_round_trip :
    (∀ key block : List Nat, key.length = 16 → allBytes key →
      block.length = 16 → allBytes block →
      aesDecryptBlock key (aesEncryptBlock key block) = block) ∧
    (∀ key tweak block : List Nat, key.length = 16 → allBytes key →
      tweak.length = 8 → allBytes tweak → block.length = 16 → allBytes block →
      (kiasuEncrypt key tweak block).bind (kiasuDecrypt key tweak) = .ok block) ∧
    (∀ key tweak pt : List Nat, key.length = 32 → allBytes key →
      tweak.length = 16 → pt.length = 16 → allBytes pt →
      (encryptBlockXts key tweak pt).bind (decryptBlockXts key tweak) = .ok pt) ∧
    (∀ key b c : List Nat, key.length = 32 → key.take 16 ≠ key.drop 16 →
      b.length = 16 → allBytes b →
      pfxEncrypt key b = .ok c → isIPv4 c = isIPv4 b →
      pfxDecrypt key c = .ok b) := by
  refine ⟨?_, ?_, ?_, ?_⟩
  · -- deterministic AES
    intro key block hk hkb hb hbb
    exact cipherDecrypt_cipherEncrypt _ (aesKf_ok key hk hkb) block hb hbb
  · -- KIASU-BC
    intro key tweak block hk hkb ht htb hb hbb
    have hkf := kiasuKf_ok key tweak hk hkb htb
    have hct := cipherEncrypt_ok _ hkf block hb
    rw [kiasuEncrypt_eq key tweak block hk ht hb]
    show kiasuDecrypt key tweak _ = _
    rw [kiasuDecrypt_eq key tweak _ hk ht hct.1,
        cipherDecrypt_cipherEncrypt _ hkf block hb hbb]
  · -- dual-key whitening
    intro key tweak pt hk hkb ht hp hpb
    have hk1 : (key.take 16).length = 16 := by simp [hk]
    have hk2 : (key.drop 16).length = 16 := by simp [hk]
    have hk1b : allBytes (key.take 16) :=
      fun v hv => hkb v (List.mem_of_mem_take hv)
    have hk2b : allBytes (key.drop 16) :=
      fun v hv => hkb v (List.mem_of_mem_drop hv)
    have hkf1 := aesKf_ok (key.take 16) hk1 hk1b
    have hkf2 := aesKf_ok (key.drop 16) hk2 hk2b
    have hmask := cipherEncrypt_ok _ hkf2 tweak ht
    have hX : (zipXor pt (aesEncryptBlock (key.drop 16) tweak)).length = 16 := by
      rw [zipXor_length, hp]
      show min 16 (cipherEncrypt _ _).length = 16
      rw [hmask.1]
      omega
    have hXb : allBytes (zipXor pt (aesEncryptBlock (key.drop 16) tweak)) :=
      zipXor_bytes _ _ hpb hmask.2
    have hE1 := cipherEncrypt_ok _ hkf1 _ hX
    have hct : (zipXor (aesEncryptBlock (key.take 16)
        (zipXor pt (aesEncryptBlock (key.drop 16) tweak)))
        (aesEncryptBlock (key.drop 16) tweak)).length = 16 := by
      rw [zipXor_length]
      show min (cipherEncrypt _ _).length (cipherEncrypt _ _).length = 16
      rw [hE1.1, hmask.1]
      omega
    rw [encryptBlockXts_eq key tweak pt hk ht hp]
    show decryptBlockXts key tweak _ = _
    rw [decryptBlockXts_eq key tweak _ hk ht hct]
    rw [zipXor_cancel _ _ (by
      show (cipherEncrypt _ _).length = (cipherEncrypt _ _).length
      rw [hE1.1, hmask.1])]
    show Except.ok (zipXor (cipherDecrypt _ (cipherEncrypt _ _)) _) = _
    rw [cipherDecrypt_cipherEncrypt _ hkf1 _ hX hXb,
        zipXor_cancel _ _ (by
          show pt.length = (cipherEncrypt _ _).length
          rw [hp, hmask.1])]
  · -- prefix-preserving, classification-compatible case
    intro key b c hk hne hb hbb henc hcls
    rw [pfxEncrypt_eq key b hk hne] at henc
    injection henc with hc
    subst hc
    rw [pfxDecrypt_eq key _ hk hne]
    by_cases h4 : isIPv4 b
    · simp only [h4, if_true] at hcls ⊢
      rw [hcls]
      simp only [if_true]
      have htake : (pfxEncLoop (key.take 16) (key.drop 16) b 32 padPrefix96
          (b.take 12 ++ [0, 0, 0, 0])).take 12 = b.take 12 := by
        rw [pfxEncLoop_take12 _ _ _ 32 _ _ (le_refl 32), take12_take12_append b hb]
      rw [htake]
      refine congrArg Except.ok ?_
      apply blocks_eq_of_bits
      · rw [pfxDecLoop_length, take12_append_length b hb]
      · exact hb
      · exact pfxDecLoop_bytes _ _ _ _ _ _ (take12_append_bytes b hbb)
      · exact hbb
      · intro p hp
        rw [pfxDecLoop_pfxEncLoop (key.take 16) (key.drop 16) b 32 padPrefix96 _ _
          (by omega) (take12_append_length b hb) (take12_append_length b hb) p hp]
        by_cases hp32 : p < 32
        · rw [if_pos hp32]
        · rw [if_neg hp32]
          exact getBit_take12_append b hb p (by omega) hp
    · simp only [Bool.not_eq_true] at h4
      simp only [h4, Bool.false_eq_true, if_false] at hcls ⊢
      rw [hcls]
      simp only [Bool.false_eq_true, if_false]
      refine congrArg Except.ok ?_
      apply blocks_eq_of_bits
      · rw [pfxDecLoop_length]
        simp
      · exact hb
      · exact pfxDecLoop_bytes _ _ _ _ _ _ replicate16_bytes
      · exact hbb
      · intro p hp
        rw [pfxDecLoop_pfxEncLoop (key.take 16) (key.drop 16) b 128 padPrefix0 _ _
          (by omega) (by simp) (by simp) p hp]
        rw [if_pos hp]

set_option maxRecDepth 1000000 in
set_option maxHeartbeats 4000000 in
/-- C1 counterexample: under the key `2b7e...789a`, the IPv6 block below
encrypts (prefix-preserving) to the IPv4-mapped-looking block
`::ffff:0.0.0.0`; decryption then classifies the ciphertext as IPv4-mapped,
starts at bit 96 instead of bit 0, and returns a different block, so the
universal round trip fails. -/
theorem c1_round_trip_counterexample :
    ¬ ((pfxEncrypt
          [0x2b,0x7e,0x15,0x16,0x28,0xae,0xd2,0xa6,0xab,0xf7,0x15,0x88,0x09,0xcf,0x4f,0x3c,
           0xa9,0xf5,0xba,0x40,0xdb,0x21,0x4c,0x37,0x98,0xf2,0xe1,0xc2,0x34,0x56,0x78,0x9a]
          [125,34,74,9,224,76,104,100,221,153,13,228,167,151,223,18]).bind
        (pfxDecrypt
          [0x2b,0x7e,0x15,0x16,0x28,0xae,0xd2,0xa6,0xab,0xf7,0x15,0x88,0x09,0xcf,0x4f,0x3c,
           0xa9,0xf5,0xba,0x40,0xdb,0x21,0x4c,0x37,0x98,0xf2,0xe1,0xc2,0x34,0x56,0x78,0x9a])
      = .ok [125,34,74,9,224,76,104,100,221,153,13,228,167,151,223,18]) := by
  decide

set_option maxRecDepth 1000000 in
set_option maxHeartbeats 4000000 in
/-- Witness for the amended C1 at concrete inputs for each of the four
constructions; the prefix-preserving conjunct is applied to the block of
`0.0.0.0`, whose ciphertext stays in the IPv4-mapped range. -/
theorem c1_round_trip_witness :
    aesDecryptBlock [1,2,3,4,5,6,7,8,9,10,11,12,13,14,15,16]
        (aesEncryptBlock [1,2,3,4,5,6,7,8,9,10,11,12,13,14,15,16]
          [0,0,0,0,0,0,0,0,0,0,255,255,192,168,1,1])
      = [0,0,0,0,0,0,0,0,0,0,255,255,192,168,1,1] ∧
    (kiasuEncrypt [1,2,3,4,5,6,7,8,9,10,11,12,13,14,15,16] (List.replicate 8 9)
        [0,0,0,0,0,0,0,0,0,0,255,255,192,168,1,1]).bind
      (kiasuDecrypt [1,2,3,4,5,6,7,8,9,10,11,12,13,14,15,16] (List.replicate 8 9))
      = .ok [0,0,0,0,0,0,0,0,0,0,255,255,192,168,1,1] ∧
    (encryptBlockXts (List.replicate 32 7) (List.replicate 16 3)
        [0,0,0,0,0,0,0,0,0,0,255,255,192,168,1,1]).bind
      (decryptBlockXts (List.replicate 32 7) (List.replicate 16 3))
      = .ok [0,0,0,0,0,0,0,0,0,0,255,255,192,168,1,1] ∧
    pfxDecrypt [0x2b,0x7e,0x15,0x16,0x28,0xae,0xd2,0xa6,0xab,0xf7,0x15,0x88,0x09,0xcf,0x4f,0x3c,
                0xa9,0xf5,0xba,0x40,0xdb,0x21,0x4c,0x37,0x98,0xf2,0xe1,0xc2,0x34,0x56,0x78,0x9a]
        [0,0,0,0,0,0,0,0,0,0,255,255,31,192,201,36]
      = .ok [0,0,0,0,0,0,0,0,0,0,255,255,0,0,0,0] :=
  ⟨c1_round_trip.1 [1,2,3,4,5,6,7,8,9,10,11,12,13,14,15,16]
      [0,0,0,0,0,0,0,0,0,0,255,255,192,168,1,1]
      (by decide) (by decide) (by decide) (by decide),
   c1_round_trip.2.1 [1,2,3,4,5,6,7,8,9,10,11,12,13,14,15,16] (List.replicate 8 9)
      [0,0,0,0,0,0,0,0,0,0,255,255,192,168,1,1]
      (by decide) (by decide) (by decide) (by decide) (by decide) (by decide),
   c1_round_trip.2.2.1 (List.replicate 32 7) (List.replicate 16 3)
      [0,0,0,0,0,0,0,0,0,0,255,255,192,168,1,1]
      (by decide) (by decide) (by decide) (by decide) (by decide),
   c1_round_trip.2.2.2
      [0x2b,0x7e,0x15,0x16,0x28,0xae,0xd2,0xa6,0xab,0xf7,0x15,0x88,0x09,0xcf,0x4f,0x3c,
       0xa9,0xf5,0xba,0x40,0xdb,0x21,0x4c,0x37,0x98,0xf2,0xe1,0xc2,0x34,0x56,0x78,0x9a]
      [0,0,0,0,0,0,0,0,0,0,255,255,0,0,0,0]
      [0,0,0,0,0,0,0,0,0,0,255,255,31,192,201,36]
      (by decide) (by decide) (by decide) (by decide) (by decide) (by decide)⟩
